import Mathlib

/-!
Verification development for the querydawg benchmark evaluation engine
(`backend/app/services/benchmark_runner.py` and
`backend/app/database/query_executor.py`).

The Python code is shallowly embedded: strings are `String`/`List Char`,
Python `float` dollar amounts are represented by `Int` micro-dollars (the
inputs exercised here are whole multiples of 1e-6 and exactly representable
in binary floating point, so addition and comparison agree), fallible code
returns `Except`/`Option`, and the mutable state of `BenchmarkRunner` / the
persistent store is threaded explicitly.

The sqlglot library used by `normalize_sql` is outside the repository; its
parse/render pass is modelled from the spec (section 4.2): parse into a
token tree (failure on unbalanced quotes), re-render a canonical textual
form with whitespace and keyword/identifier casing normalized.  Everything
else is translated directly from the Python source.
-/

namespace Querydawg

/-! ## Python character and string primitives -/

/-- Python whitespace characters (`str.strip`, `\s`): space, tab, newline,
carriage return, vertical tab, form feed. -/
def pyWs (c : Char) : Bool :=
  c = ' ' || c = '\t' || c = '\n' || c = '\r' || c = '\x0b' || c = '\x0c'

/-- ASCII lowercasing of one character (the fragment of Python `str.lower`
exercised by SQL text). -/
def asciiLower (c : Char) : Char :=
  if 65 ≤ c.toNat ∧ c.toNat ≤ 90 then Char.ofNat (c.toNat + 32) else c

/-- ASCII uppercasing of one character. -/
def asciiUpper (c : Char) : Char :=
  if 97 ≤ c.toNat ∧ c.toNat ≤ 122 then Char.ofNat (c.toNat - 32) else c

/-- Python `str.lower` on the character list. -/
def pyLower (l : List Char) : List Char := l.map asciiLower

/-- Python `str.upper` on the character list. -/
def pyUpper (l : List Char) : List Char := l.map asciiUpper

/-- Python `str.strip()`: drop leading and trailing whitespace. -/
def pyStrip (l : List Char) : List Char :=
  ((l.dropWhile pyWs).reverse.dropWhile pyWs).reverse

/-- Python `str.replace(a, b)` for single characters: every occurrence is
replaced individually (runs are not collapsed). -/
def pyReplaceChar (a b : Char) (l : List Char) : List Char :=
  l.map fun c => if c = a then b else c

/-- The fallback branch of `normalize_sql`:
`sql.lower().strip().replace('\n', ' ').replace('\t', ' ')`. -/
def pyFallback (l : List Char) : List Char :=
  pyReplaceChar '\t' ' ' (pyReplaceChar '\n' ' ' (pyStrip (pyLower l)))

/-! ## SQL Normalizer (`BenchmarkRunner.normalize_sql`)

The primary path of `normalize_sql` calls sqlglot, which is outside the
repository.  Modelled from the spec (section 4.2): parse into an expression
tree (the parse fails on malformed input, modelled as unbalanced string/ident
quotes) and re-render a canonical textual form with whitespace collapsed,
keywords uppercased and other bare words lowercased.  The fallback path is
translated directly from the source. -/

/-- Not a single quote. -/
def nsq (d : Char) : Bool := d != '\''

/-- Not a double quote. -/
def ndq (d : Char) : Bool := d != '"'

/-- A bare-word character: not whitespace and not a quote. -/
def wordC (c : Char) : Bool := !pyWs c && nsq c && ndq c

/-- Is the character one of the two SQL quote characters? -/
def isQ (c : Char) : Bool := c = '\'' || c = '"'

/-- Tokens of the modelled expression tree: bare words, single-quoted string
literals, double-quoted identifiers. -/
inductive Tok where
  | word : List Char → Tok
  | sq : List Char → Tok
  | dq : List Char → Tok
deriving DecidableEq

/-- Tokenizer worker; the `Nat` counter dominates the list length so the
recursion is structural (it is initialised with the length, so the guard
case is never reached). -/
def tokAux : Nat → List Char → List Tok
  | 0, _ => []
  | _ + 1, [] => []
  | n + 1, c :: rest =>
    if pyWs c then tokAux n rest
    else if c = '\'' then
      Tok.sq (rest.takeWhile nsq) :: tokAux n ((rest.dropWhile nsq).drop 1)
    else if c = '"' then
      Tok.dq (rest.takeWhile ndq) :: tokAux n ((rest.dropWhile ndq).drop 1)
    else
      Tok.word (c :: rest.takeWhile wordC) :: tokAux n (rest.dropWhile wordC)

/-- Tokenize a SQL text (total; quote balance is checked separately). -/
def tokenize (l : List Char) : List Tok := tokAux l.length l

/-- Quote-balance check worker over the subsequence of quote characters. -/
def quoteOkAux : Nat → List Char → Bool
  | 0, l => l.isEmpty
  | _ + 1, [] => true
  | n + 1, c :: rest =>
    match rest.dropWhile (fun d => d != c) with
    | [] => false
    | _ :: rest2 => quoteOkAux n rest2

/-- Every opening quote has a matching closing quote. -/
def quoteOk (l : List Char) : Bool := quoteOkAux l.length l

/-- The modelled parse succeeds iff the quotes of the text are balanced. -/
def parseOk (l : List Char) : Bool := quoteOk (l.filter isQ)

/-- SQL keywords whose casing the canonical renderer uppercases. -/
def KW : List (List Char) :=
  ["SELECT".data, "FROM".data, "WHERE".data, "GROUP".data, "BY".data,
   "HAVING".data, "ORDER".data, "LIMIT".data, "JOIN".data, "ON".data,
   "AS".data, "AND".data, "OR".data, "NOT".data, "IN".data, "LIKE".data,
   "DISTINCT".data, "COUNT".data, "SUM".data, "AVG".data, "MIN".data,
   "MAX".data, "ASC".data, "DESC".data, "BETWEEN".data, "EXISTS".data,
   "UNION".data, "INTERSECT".data, "EXCEPT".data]

/-- Keyword test, case-insensitive. -/
def isKeyword (w : List Char) : Bool := KW.contains (pyUpper w)

/-- Canonical casing of a bare word: keywords uppercase, identifiers
lowercase. -/
def canonWord (w : List Char) : List Char :=
  if isKeyword w then pyUpper w else pyLower w

/-- Canonicalize one token. -/
def canonTok : Tok → Tok
  | .word w => .word (canonWord w)
  | .sq s => .sq s
  | .dq s => .dq s

/-- Render one token back to text. -/
def renderTok : Tok → List Char
  | .word w => w
  | .sq s => '\'' :: (s ++ ['\''])
  | .dq s => '"' :: (s ++ ['"'])

/-- Render a token list with single spaces between tokens. -/
def renderToks : List Tok → List Char
  | [] => []
  | [t] => renderTok t
  | t :: t2 :: ts => renderTok t ++ ' ' :: renderToks (t2 :: ts)

/-- `BenchmarkRunner.normalize_sql`: parse and re-render canonically
(then `.strip()`); on parse failure fall back to
`sql.lower().strip().replace('\n', ' ').replace('\t', ' ')`. -/
def normalize_sql (s : String) : String :=
  if parseOk s.data then
    String.mk (pyStrip (renderToks ((tokenize s.data).map canonTok)))
  else
    String.mk (pyFallback s.data)

/-! ### Token validity, canonicalization and round-trip lemmas -/

/-- Structural invariant of tokens produced by the tokenizer: words are
nonempty runs of word characters, literal bodies contain no closing quote. -/
def validTok : Tok → Bool
  | .word w => !w.isEmpty && w.all wordC
  | .sq s => s.all nsq
  | .dq s => s.all ndq

/-! ## Dialect Translator (`BenchmarkRunner.sqlite_to_postgres_sql`)

Step 1 applies eleven `re.sub` patterns of the form
`(<operator-prefix>)"([^"]+)"` with replacement `\1'\2'` (flags
`re.IGNORECASE`), in source order.  Step 2 is the textual GROUP BY
completion heuristic.  `re` scanning is modelled operationally: matches are
found left to right, non-overlapping, over the input of the pass. -/

/-- Python regex `\w` (ASCII fragment): `[A-Za-z0-9_]`. -/
def isWordC (c : Char) : Bool :=
  ('A' ≤ c && c ≤ 'Z') || ('a' ≤ c && c ≤ 'z') || ('0' ≤ c && c ≤ '9') || c = '_'

/-- Regex `[0-9]`. -/
def isDigitC (c : Char) : Bool := '0' ≤ c && c ≤ '9'

/-- Regex `[A-Za-z]`. -/
def isAlphaC (c : Char) : Bool := ('A' ≤ c && c ≤ 'Z') || ('a' ≤ c && c ≤ 'z')

/-- Atoms of the operator-prefix part of the step-1 patterns. -/
inductive PatAtom where
  | ch : Char → PatAtom
  | ci : Char → Char → PatAtom
  | wsStar : PatAtom
  | wsPlus : PatAtom

/-- Run a prefix pattern against the text; returns (consumed, rest). -/
def runPat : List PatAtom → List Char → Option (List Char × List Char)
  | [], l => some ([], l)
  | .ch c :: ps, x :: r =>
    if x = c then (runPat ps r).map (fun pr => (x :: pr.1, pr.2)) else none
  | .ch _ :: _, [] => none
  | .ci lo up :: ps, x :: r =>
    if x = lo || x = up then (runPat ps r).map (fun pr => (x :: pr.1, pr.2)) else none
  | .ci _ _ :: _, [] => none
  | .wsStar :: ps, l =>
    (runPat ps (l.dropWhile pyWs)).map (fun pr => (l.takeWhile pyWs ++ pr.1, pr.2))
  | .wsPlus :: ps, l =>
    if (l.takeWhile pyWs).isEmpty then none
    else (runPat ps (l.dropWhile pyWs)).map (fun pr => (l.takeWhile pyWs ++ pr.1, pr.2))

/-- One step-1 pattern: an optional leading `\b` and the operator prefix. -/
structure OpPat where
  bound : Bool
  atoms : List PatAtom

/-- Match `"([^"]+)"` at the head of the text; returns (content, rest).
The head of `r.dropWhile ndq` is necessarily the closing `"`. -/
def matchDQ (l : List Char) : Option (List Char × List Char) :=
  match l with
  | x :: r =>
    if x = '"' then
      match r.dropWhile ndq with
      | _ :: r2 => if (r.takeWhile ndq).isEmpty then none else some (r.takeWhile ndq, r2)
      | [] => none
    else none
  | [] => none

/-- Regex `\b` before a word character: the previous character (if any) is
not a word character. -/
def wordBoundOk (prev : Option Char) : Bool :=
  match prev with
  | none => true
  | some c => !isWordC c

/-- Match one whole step-1 pattern at the head of the text; returns
(group 1, group 2, rest after the closing quote). -/
def matchOpQuote (m : OpPat) (prev : Option Char) (l : List Char) :
    Option (List Char × List Char × List Char) :=
  if m.bound && !wordBoundOk prev then none
  else
    (runPat m.atoms l).bind fun pr =>
      (matchDQ pr.2).map fun cr => (pr.1, cr.1, cr.2)

/-- `re.sub` for one step-1 pattern: left-to-right, non-overlapping; the
replacement rewrites `\1"\2"` to `\1'\2'`.  The counter dominates the text
length, making the recursion structural. -/
def subMatQuote (m : OpPat) : Nat → Option Char → List Char → List Char
  | 0, _, l => l
  | _ + 1, _, [] => []
  | n + 1, prev, c :: rest =>
    match matchOpQuote m prev (c :: rest) with
    | some (p, content, rest2) =>
      p ++ '\'' :: (content ++ '\'' :: subMatQuote m n (some '"') rest2)
    | none => c :: subMatQuote m n (some c) rest

/-- Apply one pattern over a whole text. -/
def applyPat (m : OpPat) (l : List Char) : List Char :=
  subMatQuote m l.length none l

/-- The eleven step-1 patterns, in source order:
`=`, `!=`, `<>`, `>`, `<`, `>=`, `<=`, `\bIN\s*\(`, `,`, `\bLIKE\s+`,
`\bNOT\s+LIKE\s+` (each followed by `\s*` unless stated). -/
def step1Pats : List OpPat :=
  [⟨false, [.ch '=', .wsStar]⟩,
   ⟨false, [.ch '!', .ch '=', .wsStar]⟩,
   ⟨false, [.ch '<', .ch '>', .wsStar]⟩,
   ⟨false, [.ch '>', .wsStar]⟩,
   ⟨false, [.ch '<', .wsStar]⟩,
   ⟨false, [.ch '>', .ch '=', .wsStar]⟩,
   ⟨false, [.ch '<', .ch '=', .wsStar]⟩,
   ⟨true, [.ci 'i' 'I', .ci 'n' 'N', .wsStar, .ch '(']⟩,
   ⟨false, [.ch ',', .wsStar]⟩,
   ⟨true, [.ci 'l' 'L', .ci 'i' 'I', .ci 'k' 'K', .ci 'e' 'E', .wsPlus]⟩,
   ⟨true, [.ci 'n' 'N', .ci 'o' 'O', .ci 't' 'T', .wsPlus,
           .ci 'l' 'L', .ci 'i' 'I', .ci 'k' 'K', .ci 'e' 'E', .wsPlus]⟩]

/-- Step 1 of the translator: the eleven substitutions in order. -/
def sqliteStep1 (l : List Char) : List Char :=
  step1Pats.foldl (fun acc m => applyPat m acc) l

/-! ### Step 2: the GROUP BY completion heuristic -/

/-- Python slice `l[a:b]`. -/
def sliceL (l : List Char) (a b : Nat) : List Char := (l.take b).drop a

/-- Case-insensitive prefix test. -/
def startsWithCI (pat l : List Char) : Bool :=
  decide (pat.length ≤ l.length) && (l.take pat.length).map asciiLower == pat.map asciiLower

/-- Length of the leading whitespace run. -/
def wsRun (l : List Char) : Nat := (l.takeWhile pyWs).length

/-- The character just before position `i`, if any. -/
def prevCharAt (l : List Char) (i : Nat) : Option Char :=
  if i = 0 then none else (l.drop (i - 1)).head?

/-- Regex `\b` at position `i` (next character is a word character). -/
def boundAt (l : List Char) (i : Nat) : Bool := wordBoundOk (prevCharAt l i)

/-- Terminator of the lazy capture in
`\bGROUP\s+BY\s+(.*?)(?:\s+HAVING|\s+ORDER|\s+LIMIT|$)` at position `t`.
Python `$` (without MULTILINE) matches at the end of the string and also
just before a newline that is the string's last character. -/
def gbTermAt (l : List Char) (t : Nat) : Bool :=
  if t = l.length then true
  else if t + 1 = l.length && (l.drop t).head? == some '\n' then true
  else
    match (l.drop t).head? with
    | some c =>
      pyWs c && (startsWithCI "HAVING".data ((l.drop t).drop (wsRun (l.drop t))) ||
        startsWithCI "ORDER".data ((l.drop t).drop (wsRun (l.drop t))) ||
        startsWithCI "LIMIT".data ((l.drop t).drop (wsRun (l.drop t))))
    | none => false

/-- Match the GROUP BY pattern at position `i`: returns the span `[q, t)` of
the captured clause.  The lazy `.*?` stops at the earliest terminator and
(`.` not matching newline) may not cross a newline. -/
def matchGroupByAt (l : List Char) (i : Nat) : Option (Nat × Nat) :=
  if boundAt l i && startsWithCI "GROUP".data (l.drop i) then
    let w1 := wsRun (l.drop (i + 5))
    if w1 = 0 then none
    else if startsWithCI "BY".data (l.drop (i + 5 + w1)) then
      let w2 := wsRun (l.drop (i + 5 + w1 + 2))
      if w2 = 0 then none
      else
        let q := i + 5 + w1 + 2 + w2
        match (List.range (l.length + 1)).find? (fun t => decide (q ≤ t) && gbTermAt l t) with
        | some t => if (sliceL l q t).contains '\n' then none else some (q, t)
        | none => none
    else none
  else none

/-- `re.search` of the GROUP BY pattern: first matching position. -/
def findGroupBy (l : List Char) : Option (Nat × Nat × Nat) :=
  match (List.range l.length).find? (fun i => (matchGroupByAt l i).isSome) with
  | some i =>
    match matchGroupByAt l i with
    | some qt => some (i, qt.1, qt.2)
    | none => none
  | none => none

/-- Regex `([A-Za-z]\d+)\.` matches at position `i` of the clause. -/
def aliasAt (cl : List Char) (i : Nat) : Bool :=
  match (cl.drop i).head? with
  | some c =>
    isAlphaC c &&
      (decide (1 ≤ ((cl.drop (i + 1)).takeWhile isDigitC).length) &&
        ((cl.drop (i + 1 + ((cl.drop (i + 1)).takeWhile isDigitC).length)).head? == some '.'))
  | none => false

/-- `re.search(r'([A-Za-z]\d+)\.', clause)` succeeds. -/
def hasAlias (cl : List Char) : Bool := (List.range cl.length).any (aliasAt cl)

/-- Terminator `\s+FROM` of the lazy capture in `SELECT\s+(.*?)\s+FROM`. -/
def fromTermAt (l : List Char) (t : Nat) : Bool :=
  match (l.drop t).head? with
  | some c => pyWs c && startsWithCI "FROM".data ((l.drop t).drop (wsRun (l.drop t)))
  | none => false

/-- Match `SELECT\s+(.*?)\s+FROM` (DOTALL) at position `i`: the captured
select list. -/
def selMatchAt (l : List Char) (i : Nat) : Option (List Char) :=
  if startsWithCI "SELECT".data (l.drop i) then
    let w := wsRun (l.drop (i + 6))
    if w = 0 then none
    else
      let q := i + 6 + w
      match (List.range l.length).find? (fun t => decide (q ≤ t) && fromTermAt l t) with
      | some t => some (sliceL l q t)
      | none => if 2 ≤ w && startsWithCI "FROM".data (l.drop q) then some [] else none
  else none

/-- `re.search(r'SELECT\s+(.*?)\s+FROM', …)`: first matching position. -/
def selectClauseOf (l : List Char) : Option (List Char) :=
  match (List.range l.length).find? (fun i => (selMatchAt l i).isSome) with
  | some i => selMatchAt l i
  | none => none

/-- Regex `[A-Za-z_]`. -/
def identStartC (c : Char) : Bool := isAlphaC c || c = '_'

/-- Regex `[A-Za-z0-9_]`. -/
def identContC (c : Char) : Bool := isAlphaC c || isDigitC c || c = '_'

/-- Match `([A-Za-z]\d+)\.([A-Za-z_][A-Za-z0-9_]*)` at a position of the
select list: returns (match length, `alias.column` text). -/
def colMatchAt (sc : List Char) (pos : Nat) : Option (Nat × List Char) :=
  match sc.drop pos with
  | a :: r =>
    if isAlphaC a then
      if (r.takeWhile isDigitC).isEmpty then none
      else
        match r.drop (r.takeWhile isDigitC).length with
        | '.' :: r2 =>
          match r2 with
          | h :: r3 =>
            if identStartC h then
              some (1 + (r.takeWhile isDigitC).length + 1 + 1 + (r3.takeWhile identContC).length,
                (a :: r.takeWhile isDigitC) ++ '.' :: h :: r3.takeWhile identContC)
            else none
          | [] => none
        | _ => none
    else none
  | [] => none

/-- `re.finditer` of the alias-column pattern: non-overlapping, left to
right; pairs of (match start, matched text). -/
def colScan (sc : List Char) : Nat → Nat → List (Nat × List Char)
  | 0, _ => []
  | n + 1, pos =>
    if sc.length ≤ pos then []
    else
      match colMatchAt sc pos with
      | some lencol => (pos, lencol.2) :: colScan sc n (pos + lencol.1)
      | none => colScan sc n (pos + 1)

/-- All alias-column matches of the select list. -/
def colsOf (sc : List Char) : List (Nat × List Char) := colScan sc sc.length 0

/-- The aggregate-function names of the lookback check. -/
def aggKWs : List (List Char) :=
  ["COUNT".data, "SUM".data, "AVG".data, "MIN".data, "MAX".data, "GROUP_CONCAT".data]

/-- `(COUNT|SUM|AVG|MIN|MAX|GROUP_CONCAT)\s*\(` matches at position `i`. -/
def aggAt (w : List Char) (i : Nat) : Bool :=
  aggKWs.any fun kw =>
    startsWithCI kw (w.drop i) &&
      ((w.drop (i + kw.length + wsRun (w.drop (i + kw.length)))).head? == some '(')

/-- The 20-character lookback window before a column match contains an
aggregate-function call. -/
def aggLookback (sc : List Char) (start : Nat) : Bool :=
  (List.range (sliceL sc (start - 20) start).length).any (aggAt (sliceL sc (start - 20) start))

/-- Python `col not in clause` substring test (negated). -/
def containsSub (pat l : List Char) : Bool :=
  (List.range (l.length + 1)).any fun i => (l.drop i).take pat.length == pat

/-- `re.sub(r'\bGROUP\s+BY\s+(.*?)(?=\s+HAVING|\s+ORDER|\s+LIMIT|$)', …)`:
replace every match region (the lookahead is not consumed) by
`GROUP BY <new clause>`. -/
def gbSubScan (l newCl : List Char) : Nat → Nat → List Char
  | 0, pos => l.drop pos
  | n + 1, pos =>
    if l.length ≤ pos then []
    else
      match matchGroupByAt l pos with
      | some qt => ("GROUP BY ".data ++ newCl) ++ gbSubScan l newCl n qt.2
      | none =>
        match (l.drop pos).head? with
        | some c => c :: gbSubScan l newCl n (pos + 1)
        | none => []

/-- The completed GROUP BY clause: the stripped captured clause, extended
with each non-aggregate `alias.column` of the select list that is not
already a substring of the clause. -/
def gbNewClause (l : List Char) (iqt : Nat × Nat × Nat) (sc : List Char) : List Char :=
  ((colsOf sc).filterMap fun pc => if aggLookback sc pc.1 then none else some pc.2).foldl
    (fun cl col => if containsSub col cl then cl else cl ++ (',' :: ' ' :: col))
    (pyStrip (sliceL l iqt.2.1 iqt.2.2))

/-- Step 2 of the translator, acting on the step-1 output. -/
def groupByStep (l : List Char) : List Char :=
  match findGroupBy l with
  | none => l
  | some iqt =>
    if hasAlias (pyStrip (sliceL l iqt.2.1 iqt.2.2)) then
      match selectClauseOf l with
      | none => l
      | some sc => gbSubScan l (gbNewClause l iqt sc) l.length 0
    else l

/-- `BenchmarkRunner.sqlite_to_postgres_sql`: step 1 (quoted-literal
conversion) then step 2 (GROUP BY completion for clauses that use table
aliases). -/
def sqlite_to_postgres_sql (s : String) : String :=
  String.mk (groupByStep (sqliteStep1 s.data))

/-- The guard of the step-2 rewrite: there is a GROUP BY clause and it uses
table-qualified (`T1.`-style) identifiers. -/
def multiTableGroupBy (l : List Char) : Bool :=
  match findGroupBy l with
  | some iqt => hasAlias (pyStrip (sliceL l iqt.2.1 iqt.2.2))
  | none => false

/-! ## Result Comparator -/

/-- `BenchmarkRunner.check_exact_match`: translate the gold SQL, normalize
both, compare. -/
def check_exact_match (generated_sql gold_sql : String) : Bool :=
  normalize_sql generated_sql == normalize_sql (sqlite_to_postgres_sql gold_sql)

/-- Truthiness of a Python `Optional[str]`: `None` and `""` are falsy. -/
def pyTruthyStr : Option String → Bool
  | none => false
  | some s => !s.isEmpty

/-- `BenchmarkRunner.check_execution_match`, parameterized by the safe
executor (`execute_sql_safely`), which returns the sorted row list and an
optional error string.  Rows are represented by their Python `str(...)`
form. -/
def check_execution_match (execSql : String → String → List String × Option String)
    (generated_sql gold_sql database : String) : Bool × Option String :=
  let goldRun := execSql (sqlite_to_postgres_sql gold_sql) database
  if pyTruthyStr goldRun.2 then
    (false, some ("Gold SQL failed: " ++ goldRun.2.getD ""))
  else
    let genRun := execSql generated_sql database
    if pyTruthyStr genRun.2 then (false, genRun.2)
    else (goldRun.1 == genRun.1, none)

/-! ## Safe Query Executor
(`BenchmarkRunner.execute_sql_safely`, `PostgreSQLExecutor.execute_query`)

Both functions carry
`@retry(stop=stop_after_attempt(3), wait=wait_exponential(multiplier=2, min=2, max=8),
retry=retry_if_exception_type(psycopg2.OperationalError))` and an identical
body: `conn = self.db_pool.getconn()` runs before the `try`, so an
`OperationalError` raised while acquiring the connection propagates to the
decorator and is retried; every exception inside the `try` (including
operational errors during query execution) is caught by `except Exception`
and converted to `([], str(e))` without any retry.  Rows are represented by
their Python `str(...)` form, which is also the sort key. -/

/-- Python `<` on strings: lexicographic by code point. -/
def lexLt : List Char → List Char → Bool
  | _, [] => false
  | [], _ :: _ => true
  | a :: as, b :: bs => a < b || (a = b && lexLt as bs)

/-- `a ≤ b` for the sort. -/
def strLeB (a b : String) : Bool := !(lexLt b.data a.data)

/-- Stable insertion into a sorted list. -/
def insertSorted (a : String) : List String → List String
  | [] => [a]
  | b :: l => if strLeB a b then a :: b :: l else b :: insertSorted a l

/-- `sorted(results, key=lambda x: str(x))`: stable ascending sort. -/
def sortRows : List String → List String
  | [] => []
  | a :: l => insertSorted a (sortRows l)

/-- Outcome of one decorated call attempt: an `OperationalError` while
acquiring the pooled connection (it reaches the retry decorator), or the
try-block outcome — rows fetched, or an exception converted to a string by
the `except Exception` handler. -/
inductive ConnAttempt where
  | connFail : ConnAttempt
  | body : Except String (List String) → ConnAttempt

/-- Conversion of the try-block outcome into the returned pair: exceptions
become `([], str(e))`; fetched rows are sorted for deterministic
comparison. -/
def attemptResult : Except String (List String) → List String × Option String
  | .error msg => ([], some msg)
  | .ok rows => (sortRows rows, none)

/-- `wait_exponential(multiplier=2, min=2, max=8)`: the wait in seconds
after the `n`-th failed attempt — base 2, doubling, capped at 8 (modelled
from the spec; tenacity is outside the repository). -/
def backoffWait (n : Nat) : Nat := min 8 (max 2 (2 * 2 ^ (n - 1)))

/-- The retry loop of `stop_after_attempt(3)` over attempts `k, k+1, …`:
the try-block outcome returns immediately; a connection-acquisition failure
waits `backoffWait k` and retries, and exhaustion re-raises the operational
error.  Returns the result and the list of waits performed. -/
def execAttempts (oracle : Nat → ConnAttempt) :
    Nat → Nat → Except String (List String × Option String) × List Nat
  | 0, _ => (.error "OperationalError", [])
  | r + 1, k =>
    match oracle k with
    | .body out => (.ok (attemptResult out), [])
    | .connFail =>
      if r = 0 then (.error "OperationalError", [])
      else
        ((execAttempts oracle r (k + 1)).1,
          backoffWait k :: (execAttempts oracle r (k + 1)).2)

/-- `execute_sql_safely` / `execute_query` as a function of the per-attempt
outcome: at most 3 attempts starting from attempt 1. -/
def execute_sql_safely (oracle : Nat → ConnAttempt) :
    Except String (List String × Option String) × List Nat :=
  execAttempts oracle 3 1

/-! ## Question loader (`BenchmarkRunner.load_spider_questions`) -/

/-- One entry of Spider `dev.json` (the fields the loader reads). -/
structure SpiderItem where
  db_id : String
  question : String
  query : String

/-- `SpiderQuestion` (`app/models/benchmark.py`). -/
structure SpiderQuestion where
  question_id : String
  database : String
  question : String
  query : String
deriving DecidableEq

/-- Python `f"dev_{i:04d}"`. -/
def devId (i : Nat) : String :=
  "dev_" ++ String.mk (List.replicate (4 - (toString i).length) '0') ++ toString i

/-- Truthiness of `Optional[List[str]]`: `None` and `[]` are falsy, so an
empty filter list disables filtering. -/
def pyTruthyList : Option (List String) → Bool
  | none => false
  | some l => !l.isEmpty

/-- Truthiness of `Optional[int]`: `None` and `0` are falsy, so a limit of 0
disables the limit. -/
def pyTruthyInt : Option Int → Bool
  | none => false
  | some n => n != 0

/-- The enumeration loop of `load_spider_questions`: `i` is the enumeration
index, `count` the number of questions accumulated so far.  The database
filter applies only when `databases` is truthy; after each append the loop
breaks when `limit` is truthy and `len(questions) >= limit`. -/
def loadGo (databases : Option (List String)) (limit : Option Int) :
    List SpiderItem → Nat → Nat → List SpiderQuestion
  | [], _, _ => []
  | item :: rest, i, count =>
    if pyTruthyList databases && !((databases.getD []).contains item.db_id) then
      loadGo databases limit rest (i + 1) count
    else
      if pyTruthyInt limit && (limit.getD 0 ≤ (count + 1 : Int)) then
        [⟨devId i, item.db_id, item.question, item.query⟩]
      else
        ⟨devId i, item.db_id, item.question, item.query⟩ ::
          loadGo databases limit rest (i + 1) (count + 1)

/-- `BenchmarkRunner.load_spider_questions` on already-parsed JSON data. -/
def load_spider_questions (data : List SpiderItem) (databases : Option (List String))
    (limit : Option Int) : List SpiderQuestion :=
  loadGo databases limit data 0 0

/-! ## Cost Ledger and Run Orchestrator
(`record_cost`, `process_question_*`, `run_benchmark`)

The persistent store (`BenchmarkStore`) is modelled as an explicit event
state; the externally observable run status read by the cancellation poll is
an input (`pollStatus`), since cancellation is requested by another process.
`pollEvents` records the question indices at which `get_run_status` was
read. -/

/-- The per-approach fields of a `BenchmarkResult` row. -/
structure ApproachFields where
  sql : Option String
  exact_match : Bool
  exec_match : Bool
  error : Option String
  cost_usd : Int
  tokens_used : Nat
  retry_count : Nat
deriving DecidableEq

/-- One appended `BenchmarkResult` row (wall-clock fields not modelled). -/
structure BenchResult where
  question_id : String
  database : String
  question : String
  gold_sql : String
  baseline : Option ApproachFields
  enhanced : Option ApproachFields
deriving DecidableEq

/-- The store-visible state of one run. -/
structure StoreState where
  status : String
  statusReason : Option String
  runError : Option String
  costEvents : List (String × Int)
  results : List BenchResult
  progressEvents : List (Nat × Nat × Option String)
  pollEvents : List Nat
  metricsComputed : Bool
deriving DecidableEq

/-- The run record right after `create_run`. -/
def initStore : StoreState := ⟨"pending", none, none, [], [], [], [], false⟩

/-- Outcome of one external generator call: a response with sql, cost and
tokens, or an exception (caught by the per-question handler). -/
inductive GenOutcome where
  | ok : String → Int → Nat → GenOutcome
  | exn : String → GenOutcome

/-- The external collaborators of one run. -/
structure RunEnv where
  genBaseline : SpiderQuestion → GenOutcome
  genEnhanced : SpiderQuestion → GenOutcome
  execSql : String → String → List String × Option String
  pollStatus : Nat → String

/-- `BenchmarkRunner.record_cost`: the in-process total is increased first;
if the new total exceeds the budget limit a `BudgetExceededError` is raised
(and the store cost update is skipped), otherwise the incremental
per-approach cost is persisted.  The error payload stands in for Python's
`str(e)`, which interpolates the limit and the total into the message; the
branch structure is exact and nothing proved here depends on the text. -/
def record_cost (budget cost : Int) (approach : String) (tc : Int) (st : StoreState) :
    Int × Except String StoreState :=
  if budget < tc + cost then
    (tc + cost, .error "BudgetExceededError: Budget limit exceeded")
  else
    (tc + cost, .ok { st with costEvents := st.costEvents ++ [(approach, cost)] })

/-- `BenchmarkRunner.process_question_baseline`.  The whole body runs inside
`try … except Exception`, so a generator failure or the
`BudgetExceededError` raised by `record_cost` is caught here and converted
into a zero-cost failure record: the exception never propagates to the
caller.  Returns the result fields, the new total cost and store state. -/
def process_question_baseline (env : RunEnv) (budget : Int) (q : SpiderQuestion)
    (tc : Int) (st : StoreState) : ApproachFields × Int × StoreState :=
  match env.genBaseline q with
  | .exn msg => (⟨none, false, false, some msg, 0, 0, 0⟩, tc, st)
  | .ok sql cost tokens =>
    match record_cost budget cost "baseline" tc st with
    | (tc2, .error msg) => (⟨none, false, false, some msg, 0, 0, 0⟩, tc2, st)
    | (tc2, .ok st2) =>
      (⟨some sql, check_exact_match sql q.query,
        (check_execution_match env.execSql sql q.query q.database).1,
        (check_execution_match env.execSql sql q.query q.database).2,
        cost, tokens, 0⟩, tc2, st2)

/-- `BenchmarkRunner.process_question_enhanced`: identical shape with the
enhanced generator and approach label. -/
def process_question_enhanced (env : RunEnv) (budget : Int) (q : SpiderQuestion)
    (tc : Int) (st : StoreState) : ApproachFields × Int × StoreState :=
  match env.genEnhanced q with
  | .exn msg => (⟨none, false, false, some msg, 0, 0, 0⟩, tc, st)
  | .ok sql cost tokens =>
    match record_cost budget cost "enhanced" tc st with
    | (tc2, .error msg) => (⟨none, false, false, some msg, 0, 0, 0⟩, tc2, st)
    | (tc2, .ok st2) =>
      (⟨some sql, check_exact_match sql q.query,
        (check_execution_match env.execSql sql q.query q.database).1,
        (check_execution_match env.execSql sql q.query q.database).2,
        cost, tokens, 0⟩, tc2, st2)

/-- The non-cancelled part of one loop iteration: update progress with the
current question, run the requested approaches, append one result row.
Returns the new total cost and store state. -/
def loopStep (env : RunEnv) (budget : Int) (run_type : String) (q : SpiderQuestion)
    (completed failed : Nat) (tc : Int) (st : StoreState) : Int × StoreState :=
  let st2 := { st with
    progressEvents := st.progressEvents ++ [(completed, failed, some q.question)] }
  let pb :=
    if run_type == "baseline" || run_type == "both" then
      (fun r : ApproachFields × Int × StoreState => (some r.1, r.2.1, r.2.2))
        (process_question_baseline env budget q tc st2)
    else (none, tc, st2)
  let pe :=
    if run_type == "enhanced" || run_type == "both" then
      (fun r : ApproachFields × Int × StoreState => (some r.1, r.2.1, r.2.2))
        (process_question_enhanced env budget q pb.2.1 pb.2.2)
    else (none, pb.2.1, pb.2.2)
  (pe.2.1, { pe.2.2 with results := pe.2.2.results ++
    [⟨q.question_id, q.database, q.question, q.query, pb.1, pe.1⟩] })

/-- The per-question loop of `run_benchmark`: every 10th question index the
externally stored status is polled and, if cancelled, progress is flushed
and the loop stops (final `Bool` = stopped by cancellation); otherwise one
`loopStep` runs and `completed` increments.  The loop body cannot raise —
both `process_question_*` functions swallow every exception — so the
`except`-driven `failed` counter never moves. -/
def runLoop (env : RunEnv) (budget : Int) (run_type : String) :
    List SpiderQuestion → Nat → Nat → Nat → Int → StoreState →
      StoreState × Nat × Nat × Int × Bool
  | [], _, completed, failed, tc, st => (st, completed, failed, tc, false)
  | q :: rest, i, completed, failed, tc, st =>
    let st1 := if i % 10 == 0 then { st with pollEvents := st.pollEvents ++ [i] } else st
    if i % 10 == 0 && (env.pollStatus i == "cancelled") then
      ({ st1 with progressEvents := st1.progressEvents ++ [(completed, failed, none)] },
        completed, failed, tc, true)
    else
      let s := loopStep env budget run_type q completed failed tc st1
      runLoop env budget run_type rest (i + 1) (completed + 1) failed s.1 s.2

/-- `BenchmarkConfig` (`app/models/benchmark.py`). -/
structure BenchmarkConfig where
  name : String
  run_type : String
  databases : Option (List String)
  question_limit : Option Int

/-- `BenchmarkRunner.run_benchmark`: load the filtered questions, create the
run and mark it running, reset the cost total, run the loop; on normal
exhaustion compute metrics, set status `completed` and flush final progress.
Returns the final store state and in-process total cost.  The
`except BudgetExceededError` / `except Exception` handlers of the source are
unreachable from the loop body (`process_question_*` catches every
exception, including `BudgetExceededError`), so the embedding of the loop is
total and the run cannot end in the `failed` state. -/
def run_benchmark (env : RunEnv) (budget : Int) (data : List SpiderItem)
    (config : BenchmarkConfig) : StoreState × Int :=
  let questions := load_spider_questions data config.databases config.question_limit
  let r := runLoop env budget config.run_type questions 0 0 0 0
    { initStore with status := "running" }
  if r.2.2.2.2 then (r.1, r.2.2.2.1)
  else
    ({ r.1 with
        metricsComputed := true,
        status := "completed",
        statusReason := some "completed",
        progressEvents := r.1.progressEvents ++ [(r.2.1, r.2.2.1, none)] },
      r.2.2.2.1)

/-! ### The budget scenario (C1)

Budget limit $1.00 (1 000 000 micro-dollars), a baseline run of two
questions whose generation costs $0.75 each.  The second `record_cost`
raises `BudgetExceededError`, but `process_question_baseline` catches it in
its own `except Exception` handler — `record_cost` is called only inside the
two `process_question_*` try blocks, so the dedicated
`except BudgetExceededError` handler of `run_benchmark` (which would persist
status `failed` with reason `budget_exceeded`) is unreachable, and the run
completes normally. -/

/-- Environment of the budget scenario: every generation costs $0.75. -/
def budgetEnv : RunEnv :=
  { genBaseline := fun _ => .ok "SELECT 1" 750000 10,
    genEnhanced := fun _ => .ok "SELECT 1" 750000 10,
    execSql := fun _ _ => ([], none),
    pollStatus := fun _ => "running" }

/-- Two questions over one database. -/
def budgetData : List SpiderItem :=
  [⟨"db1", "first question", "SELECT 1"⟩, ⟨"db1", "second question", "SELECT 1"⟩]

/-- A baseline run without filter or limit. -/
def budgetConfig : BenchmarkConfig := ⟨"budget run", "baseline", none, none⟩

/-- A concrete environment whose stored status flips to cancelled from
question index 4 on. -/
def envC : RunEnv :=
  { genBaseline := fun _ => GenOutcome.ok "SELECT 1" 0 0,
    genEnhanced := fun _ => GenOutcome.ok "SELECT 1" 0 0,
    execSql := fun _ _ => ([], none),
    pollStatus := fun j => if 4 ≤ j then "cancelled" else "running" }

/-- Fifteen identical Spider items. -/
def dataC : List SpiderItem :=
  (List.range 15).map (fun _ => { db_id := "db", question := "q", query := "SELECT 1" })

/-- A baseline run over every database with no limit. -/
def configC : BenchmarkConfig :=
  { name := "w", run_type := "baseline", databases := none, question_limit := none }

/-! ## Theorems -/

/-! ## Character-level lemmas -/

theorem char_toNat_ofNat {n : Nat} (h : n < 0xd800) : (Char.ofNat n).toNat = n := by
  rw [Char.ofNat, dif_pos (Or.inl (by exact_mod_cast h))]
  show (UInt32.ofNat' n _).toNat = n
  simp [UInt32.ofNat', UInt32.toNat, BitVec.toNat_ofNatLt]

theorem char_eq_of_toNat {a b : Char} (h : a.toNat = b.toNat) : a = b := by
  apply Char.ext
  apply UInt32.eq_of_toBitVec_eq
  apply BitVec.eq_of_toNat_eq
  exact h

theorem asciiLower_toNat (c : Char) :
    (asciiLower c).toNat = if 65 ≤ c.toNat ∧ c.toNat ≤ 90 then c.toNat + 32 else c.toNat := by
  unfold asciiLower
  split
  · next h => exact char_toNat_ofNat (by omega)
  · rfl

theorem asciiUpper_toNat (c : Char) :
    (asciiUpper c).toNat = if 97 ≤ c.toNat ∧ c.toNat ≤ 122 then c.toNat - 32 else c.toNat := by
  unfold asciiUpper
  split
  · next h => exact char_toNat_ofNat (by omega)
  · rfl

theorem char_eq_iff_toNat {a b : Char} : a = b ↔ a.toNat = b.toNat :=
  ⟨fun h => h ▸ rfl, char_eq_of_toNat⟩

theorem pyWs_iff_toNat (c : Char) :
    pyWs c = true ↔ (c.toNat = 32 ∨ c.toNat = 9 ∨ c.toNat = 10 ∨ c.toNat = 13 ∨
      c.toNat = 11 ∨ c.toNat = 12) := by
  unfold pyWs
  simp only [Bool.or_eq_true, decide_eq_true_eq, char_eq_iff_toNat,
    show (' ').toNat = 32 from rfl, show ('\t').toNat = 9 from rfl,
    show ('\n').toNat = 10 from rfl, show ('\r').toNat = 13 from rfl,
    show ('\x0b').toNat = 11 from rfl, show ('\x0c').toNat = 12 from rfl]
  omega

theorem asciiLower_asciiLower (c : Char) : asciiLower (asciiLower c) = asciiLower c := by
  apply char_eq_of_toNat
  rw [asciiLower_toNat, asciiLower_toNat]
  split_ifs <;> omega

theorem asciiUpper_asciiUpper (c : Char) : asciiUpper (asciiUpper c) = asciiUpper c := by
  apply char_eq_of_toNat
  rw [asciiUpper_toNat, asciiUpper_toNat]
  split_ifs <;> omega

theorem asciiUpper_asciiLower (c : Char) : asciiUpper (asciiLower c) = asciiUpper c := by
  apply char_eq_of_toNat
  rw [asciiUpper_toNat, asciiLower_toNat, asciiUpper_toNat]
  split_ifs <;> omega

theorem asciiLower_asciiUpper (c : Char) : asciiLower (asciiUpper c) = asciiLower c := by
  apply char_eq_of_toNat
  rw [asciiLower_toNat, asciiUpper_toNat, asciiLower_toNat]
  split_ifs <;> omega

theorem pyWs_asciiLower (c : Char) : pyWs (asciiLower c) = pyWs c := by
  by_cases h : 65 ≤ c.toNat ∧ c.toNat ≤ 90
  · have h1 : pyWs (asciiLower c) = false := by
      by_contra hx
      simp only [Bool.not_eq_false] at hx
      have := (pyWs_iff_toNat _).mp hx
      rw [asciiLower_toNat, if_pos h] at this
      omega
    have h2 : pyWs c = false := by
      by_contra hx
      simp only [Bool.not_eq_false] at hx
      have := (pyWs_iff_toNat _).mp hx
      omega
    rw [h1, h2]
  · have hl : asciiLower c = c := by
      apply char_eq_of_toNat
      rw [asciiLower_toNat, if_neg h]
    rw [hl]

theorem asciiLower_eq_iff (c q : Char)
    (hq : q.toNat < 65 ∨ (90 < q.toNat ∧ q.toNat < 97)) :
    (asciiLower c = q) ↔ c = q := by
  rw [char_eq_iff_toNat, char_eq_iff_toNat, asciiLower_toNat]
  by_cases h : 65 ≤ c.toNat ∧ c.toNat ≤ 90
  · rw [if_pos h]
    constructor <;> intro h2 <;> omega
  · rw [if_neg h]

/-! ## List helper lemmas -/

theorem length_dropWhile_le (p : α → Bool) (l : List α) :
    (l.dropWhile p).length ≤ l.length := by
  induction l with
  | nil => simp
  | cons c rest ih =>
    by_cases h : p c = true
    · rw [List.dropWhile_cons, if_pos h, List.length_cons]
      omega
    · rw [List.dropWhile_cons, if_neg h]

theorem dropWhile_head_not (p : α → Bool) (m : List α)
    (hm : ∀ c, m.head? = some c → p c = false) : m.dropWhile p = m := by
  cases m with
  | nil => rfl
  | cons a r =>
    rw [List.dropWhile_cons, hm a rfl]
    simp

theorem pyStrip_no_edge_ws (l : List Char)
    (hhead : ∀ c, l.head? = some c → pyWs c = false)
    (hlast : ∀ c, l.getLast? = some c → pyWs c = false) :
    pyStrip l = l := by
  unfold pyStrip
  rw [dropWhile_head_not pyWs l hhead]
  rw [dropWhile_head_not pyWs l.reverse
    (by intro c hc; apply hlast; rwa [List.head?_reverse] at hc)]
  exact l.reverse_reverse

theorem dropWhile_filter_eq (p q : α → Bool) (l : List α)
    (h : ∀ c, p c = true → q c = false) :
    (l.dropWhile p).filter q = l.filter q := by
  induction l with
  | nil => rfl
  | cons a rest ih =>
    by_cases hp : p a = true
    · rw [List.dropWhile_cons, if_pos hp, ih, List.filter_cons, h a hp]
      simp
    · rw [List.dropWhile_cons, if_neg hp]

theorem filter_map_eq_of_pres (f : α → α) (q : α → Bool) (l : List α)
    (hq : ∀ c, q (f c) = q c) (hfix : ∀ c, q c = true → f c = c) :
    (l.map f).filter q = l.filter q := by
  induction l with
  | nil => rfl
  | cons a rest ih =>
    by_cases h : q a = true
    · rw [List.map_cons, List.filter_cons, List.filter_cons, hq a, h, hfix a h]
      simp [ih]
    · have h' : q a = false := by simpa using h
      rw [List.map_cons, List.filter_cons, List.filter_cons, hq a, h']
      simp [ih]

theorem pyStrip_filter_eq (q : Char → Bool) (l : List Char)
    (h : ∀ c, pyWs c = true → q c = false) :
    (pyStrip l).filter q = l.filter q := by
  unfold pyStrip
  rw [List.filter_reverse, dropWhile_filter_eq _ _ _ h, List.filter_reverse,
    dropWhile_filter_eq _ _ _ h, List.reverse_reverse]

/-! ### Tokenizer equation lemmas -/

theorem tokAux_stable : ∀ (n m : Nat) (l : List Char),
    l.length ≤ n → l.length ≤ m → tokAux n l = tokAux m l := by
  intro n
  induction n with
  | zero =>
    intro m l hn _
    have hl : l = [] := List.length_eq_zero.mp (Nat.le_zero.mp hn)
    subst hl
    cases m <;> rfl
  | succ n ih =>
    intro m l hn hm
    cases l with
    | nil => cases m <;> rfl
    | cons c rest =>
      cases m with
      | zero => simp at hm
      | succ m' =>
        simp only [List.length_cons] at hn hm
        by_cases h1 : pyWs c = true
        · simp only [tokAux, h1, if_true]
          exact ih m' rest (by omega) (by omega)
        · by_cases h2 : c = '\''
          · subst h2
            simp only [tokAux, show pyWs '\'' = false from rfl, Bool.false_eq_true,
              if_false, if_true]
            have hlen : ((rest.dropWhile nsq).drop 1).length ≤ rest.length := by
              have := length_dropWhile_le nsq rest
              have := ((rest.dropWhile nsq).length_drop 1)
              omega
            rw [ih m' _ (by omega) (by omega)]
          · by_cases h3 : c = '"'
            · subst h3
              simp only [tokAux, show pyWs '"' = false from rfl,
                show ('"' : Char) = '\'' ↔ False from by simp,
                Bool.false_eq_true, if_false, if_true]
              have hlen : ((rest.dropWhile ndq).drop 1).length ≤ rest.length := by
                have := length_dropWhile_le ndq rest
                have := ((rest.dropWhile ndq).length_drop 1)
                omega
              rw [ih m' _ (by omega) (by omega)]
            · simp only [tokAux, h1, h2, h3, if_false, Bool.false_eq_true]
              have hlen : (rest.dropWhile wordC).length ≤ rest.length :=
                length_dropWhile_le wordC rest
              rw [ih m' _ (by omega) (by omega)]

theorem tokenize_nil : tokenize [] = [] := rfl

theorem tokenize_ws (c : Char) (rest : List Char) (h : pyWs c = true) :
    tokenize (c :: rest) = tokenize rest := by
  unfold tokenize
  simp [tokAux, h]

theorem tokenize_sq (rest : List Char) :
    tokenize ('\'' :: rest) =
      Tok.sq (rest.takeWhile nsq) :: tokenize ((rest.dropWhile nsq).drop 1) := by
  unfold tokenize
  simp only [List.length_cons, tokAux, show pyWs '\'' = false from rfl,
    Bool.false_eq_true, if_false, if_true]
  congr 1
  apply tokAux_stable
  · have := length_dropWhile_le nsq rest
    have := ((rest.dropWhile nsq).length_drop 1)
    omega
  · exact Nat.le_refl _

theorem tokenize_dq (rest : List Char) :
    tokenize ('"' :: rest) =
      Tok.dq (rest.takeWhile ndq) :: tokenize ((rest.dropWhile ndq).drop 1) := by
  unfold tokenize
  simp only [List.length_cons, tokAux, show pyWs '"' = false from rfl,
    show ('"' : Char) ≠ '\'' from by decide, Bool.false_eq_true, if_false, if_true]
  congr 1
  apply tokAux_stable
  · have := length_dropWhile_le ndq rest
    have := ((rest.dropWhile ndq).length_drop 1)
    omega
  · exact Nat.le_refl _

theorem tokenize_word (c : Char) (rest : List Char)
    (h1 : pyWs c = false) (h2 : c ≠ '\'') (h3 : c ≠ '"') :
    tokenize (c :: rest) =
      Tok.word (c :: rest.takeWhile wordC) :: tokenize (rest.dropWhile wordC) := by
  unfold tokenize
  simp only [List.length_cons, tokAux, h1, h2, h3, Bool.false_eq_true, if_false]
  congr 1
  apply tokAux_stable
  · have := length_dropWhile_le wordC rest
    omega
  · exact Nat.le_refl _

theorem quoteOkAux_stable : ∀ (n m : Nat) (l : List Char),
    l.length ≤ n → l.length ≤ m → quoteOkAux n l = quoteOkAux m l := by
  intro n
  induction n with
  | zero =>
    intro m l hn _
    have hl : l = [] := List.length_eq_zero.mp (Nat.le_zero.mp hn)
    subst hl
    cases m <;> rfl
  | succ n ih =>
    intro m l hn hm
    cases l with
    | nil => cases m <;> rfl
    | cons c rest =>
      cases m with
      | zero => simp at hm
      | succ m' =>
        simp only [List.length_cons] at hn hm
        simp only [quoteOkAux]
        cases hd : rest.dropWhile (fun d => d != c) with
        | nil => rfl
        | cons x rest2 =>
          apply ih
          · have := length_dropWhile_le (fun d => d != c) rest
            rw [hd] at this
            simp only [List.length_cons] at this
            omega
          · have := length_dropWhile_le (fun d => d != c) rest
            rw [hd] at this
            simp only [List.length_cons] at this
            omega

theorem quoteOk_nil : quoteOk [] = true := rfl

theorem quoteOk_cons (c : Char) (rest : List Char) :
    quoteOk (c :: rest) =
      match rest.dropWhile (fun d => d != c) with
      | [] => false
      | _ :: rest2 => quoteOk rest2 := by
  unfold quoteOk
  simp only [List.length_cons, quoteOkAux]
  cases hd : rest.dropWhile (fun d => d != c) with
  | nil => rfl
  | cons x rest2 =>
    apply quoteOkAux_stable
    · have := length_dropWhile_le (fun d => d != c) rest
      rw [hd] at this
      simp only [List.length_cons] at this
      omega
    · exact Nat.le_refl _

theorem wordC_spec {c : Char} (h : wordC c = true) :
    pyWs c = false ∧ c ≠ '\'' ∧ c ≠ '"' := by
  unfold wordC nsq ndq at h
  simp only [Bool.and_eq_true, Bool.not_eq_true', bne_iff_ne, ne_eq] at h
  exact ⟨h.1.1, h.1.2, h.2⟩

theorem wordC_of_parts {c : Char} (h1 : pyWs c = false) (h2 : c ≠ '\'') (h3 : c ≠ '"') :
    wordC c = true := by
  unfold wordC nsq ndq
  simp [h1, h2, h3]

theorem takeWhile_all {p : α → Bool} {l : List α} (h : ∀ a ∈ l, p a = true) :
    l.takeWhile p = l := by
  induction l with
  | nil => rfl
  | cons a rest ih =>
    rw [List.takeWhile_cons, if_pos (h a (List.mem_cons_self a rest))]
    rw [ih fun x hx => h x (List.mem_cons_of_mem a hx)]

theorem dropWhile_all {p : α → Bool} {l : List α} (h : ∀ a ∈ l, p a = true) :
    l.dropWhile p = [] := by
  induction l with
  | nil => rfl
  | cons a rest ih =>
    rw [List.dropWhile_cons, if_pos (h a (List.mem_cons_self a rest))]
    exact ih fun x hx => h x (List.mem_cons_of_mem a hx)

theorem tokenize_valid : ∀ (n : Nat) (l : List Char), l.length ≤ n →
    ∀ t ∈ tokenize l, validTok t = true := by
  intro n
  induction n with
  | zero =>
    intro l hn t ht
    have hl : l = [] := List.length_eq_zero.mp (Nat.le_zero.mp hn)
    subst hl
    simp [tokenize_nil] at ht
  | succ n ih =>
    intro l hl t ht
    cases l with
    | nil => simp [tokenize_nil] at ht
    | cons c rest =>
      simp only [List.length_cons] at hl
      by_cases h1 : pyWs c = true
      · rw [tokenize_ws c rest h1] at ht
        exact ih rest (by omega) t ht
      · have h1' : pyWs c = false := by simpa using h1
        by_cases h2 : c = '\''
        · subst h2
          rw [tokenize_sq] at ht
          rcases List.mem_cons.mp ht with h | h
          · subst h
            simp only [validTok, List.all_eq_true]
            intro x hx
            exact List.mem_takeWhile_imp hx
          · apply ih _ _ t h
            have := length_dropWhile_le nsq rest
            have := ((rest.dropWhile nsq).length_drop 1)
            omega
        · by_cases h3 : c = '"'
          · subst h3
            rw [tokenize_dq] at ht
            rcases List.mem_cons.mp ht with h | h
            · subst h
              simp only [validTok, List.all_eq_true]
              intro x hx
              exact List.mem_takeWhile_imp hx
            · apply ih _ _ t h
              have := length_dropWhile_le ndq rest
              have := ((rest.dropWhile ndq).length_drop 1)
              omega
          · rw [tokenize_word c rest h1' h2 h3] at ht
            rcases List.mem_cons.mp ht with h | h
            · subst h
              simp only [validTok, Bool.and_eq_true, List.all_eq_true]
              refine ⟨by simp, ?_⟩
              intro x hx
              rcases List.mem_cons.mp hx with hx | hx
              · subst hx; exact wordC_of_parts h1' h2 h3
              · exact List.mem_takeWhile_imp hx
            · apply ih _ _ t h
              have := length_dropWhile_le wordC rest
              omega

theorem tokenize_valid' (l : List Char) : ∀ t ∈ tokenize l, validTok t = true :=
  tokenize_valid l.length l (Nat.le_refl _)

theorem pyWs_asciiUpper (c : Char) : pyWs (asciiUpper c) = pyWs c := by
  by_cases h : 97 ≤ c.toNat ∧ c.toNat ≤ 122
  · have h1 : pyWs (asciiUpper c) = false := by
      by_contra hx
      simp only [Bool.not_eq_false] at hx
      have := (pyWs_iff_toNat _).mp hx
      rw [asciiUpper_toNat, if_pos h] at this
      omega
    have h2 : pyWs c = false := by
      by_contra hx
      simp only [Bool.not_eq_false] at hx
      have := (pyWs_iff_toNat _).mp hx
      omega
    rw [h1, h2]
  · have hl : asciiUpper c = c := by
      apply char_eq_of_toNat
      rw [asciiUpper_toNat, if_neg h]
    rw [hl]

theorem asciiUpper_eq_iff (c q : Char)
    (hq : q.toNat < 65 ∨ (90 < q.toNat ∧ q.toNat < 97)) :
    (asciiUpper c = q) ↔ c = q := by
  rw [char_eq_iff_toNat, char_eq_iff_toNat, asciiUpper_toNat]
  by_cases h : 97 ≤ c.toNat ∧ c.toNat ≤ 122
  · rw [if_pos h]
    constructor <;> intro h2 <;> omega
  · rw [if_neg h]

theorem wordC_asciiLower {c : Char} (h : wordC c = true) : wordC (asciiLower c) = true := by
  obtain ⟨hw, hs, hd⟩ := wordC_spec h
  apply wordC_of_parts
  · rw [pyWs_asciiLower]; exact hw
  · intro hx; exact hs ((asciiLower_eq_iff c '\'' (by left; decide)).mp hx)
  · intro hx; exact hd ((asciiLower_eq_iff c '"' (by left; decide)).mp hx)

theorem wordC_asciiUpper {c : Char} (h : wordC c = true) : wordC (asciiUpper c) = true := by
  obtain ⟨hw, hs, hd⟩ := wordC_spec h
  apply wordC_of_parts
  · rw [pyWs_asciiUpper]; exact hw
  · intro hx; exact hs ((asciiUpper_eq_iff c '\'' (by left; decide)).mp hx)
  · intro hx; exact hd ((asciiUpper_eq_iff c '"' (by left; decide)).mp hx)

theorem canonTok_valid {t : Tok} (h : validTok t = true) : validTok (canonTok t) = true := by
  cases t with
  | word w =>
    simp only [validTok, Bool.and_eq_true, List.all_eq_true] at h
    obtain ⟨hne, hall⟩ := h
    simp only [canonTok, canonWord]
    by_cases hk : isKeyword w = true
    · rw [if_pos hk]
      simp only [validTok, Bool.and_eq_true, List.all_eq_true, pyUpper]
      constructor
      · simpa using hne
      · intro x hx
        obtain ⟨y, hy, rfl⟩ := List.mem_map.mp hx
        exact wordC_asciiUpper (hall y hy)
    · rw [if_neg hk]
      simp only [validTok, Bool.and_eq_true, List.all_eq_true, pyLower]
      constructor
      · simpa using hne
      · intro x hx
        obtain ⟨y, hy, rfl⟩ := List.mem_map.mp hx
        exact wordC_asciiLower (hall y hy)
  | sq s => exact h
  | dq s => exact h

theorem pyUpper_pyUpper (w : List Char) : pyUpper (pyUpper w) = pyUpper w := by
  unfold pyUpper
  rw [List.map_map]
  exact List.map_congr_left fun a _ => asciiUpper_asciiUpper a

theorem pyUpper_pyLower (w : List Char) : pyUpper (pyLower w) = pyUpper w := by
  unfold pyUpper pyLower
  rw [List.map_map]
  exact List.map_congr_left fun a _ => asciiUpper_asciiLower a

theorem pyLower_pyLower (w : List Char) : pyLower (pyLower w) = pyLower w := by
  unfold pyLower
  rw [List.map_map]
  exact List.map_congr_left fun a _ => asciiLower_asciiLower a

theorem canonWord_idem (w : List Char) : canonWord (canonWord w) = canonWord w := by
  unfold canonWord
  by_cases hk : isKeyword w = true
  · rw [if_pos hk]
    have hk2 : isKeyword (pyUpper w) = true := by
      unfold isKeyword at hk ⊢
      rwa [pyUpper_pyUpper]
    rw [if_pos hk2, pyUpper_pyUpper]
  · rw [if_neg hk]
    have hk2 : isKeyword (pyLower w) = false := by
      unfold isKeyword at hk ⊢
      rw [pyUpper_pyLower]
      simpa using hk
    rw [if_neg (by simp [hk2]), pyLower_pyLower]

theorem canonTok_idem (t : Tok) : canonTok (canonTok t) = canonTok t := by
  cases t with
  | word w => simp [canonTok, canonWord_idem]
  | sq s => rfl
  | dq s => rfl

theorem tokenize_render_cons (t : Tok) (l : List Char) (hv : validTok t = true) :
    tokenize (renderTok t ++ ' ' :: l) = t :: tokenize l := by
  cases t with
  | word w =>
    simp only [validTok, Bool.and_eq_true, List.all_eq_true] at hv
    obtain ⟨hne, hall⟩ := hv
    cases w with
    | nil => simp at hne
    | cons c wr =>
      have hc := wordC_spec (hall c (List.mem_cons_self c wr))
      simp only [renderTok, List.cons_append]
      rw [tokenize_word c _ hc.1 hc.2.1 hc.2.2]
      have htk : (wr ++ ' ' :: l).takeWhile wordC = wr := by
        rw [List.takeWhile_append_of_pos
          (fun a ha => hall a (List.mem_cons_of_mem c ha))]
        simp [List.takeWhile_cons, show wordC ' ' = false from rfl]
      have hdr : (wr ++ ' ' :: l).dropWhile wordC = ' ' :: l := by
        rw [List.dropWhile_append_of_pos
          (fun a ha => hall a (List.mem_cons_of_mem c ha))]
        simp [List.dropWhile_cons, show wordC ' ' = false from rfl]
      rw [htk, hdr, tokenize_ws ' ' l rfl]
  | sq s =>
    simp only [validTok, List.all_eq_true] at hv
    simp only [renderTok, List.cons_append, List.append_assoc, List.singleton_append]
    rw [tokenize_sq]
    simp only [List.nil_append]
    have htk : (s ++ '\'' :: ' ' :: l).takeWhile nsq = s := by
      rw [List.takeWhile_append_of_pos hv]
      simp [List.takeWhile_cons, show nsq '\'' = false from rfl]
    have hdr : (s ++ '\'' :: ' ' :: l).dropWhile nsq = '\'' :: ' ' :: l := by
      rw [List.dropWhile_append_of_pos hv]
      simp [List.dropWhile_cons, show nsq '\'' = false from rfl]
    rw [htk, hdr]
    simp only [List.drop_succ_cons, List.drop_zero]
    rw [tokenize_ws ' ' l rfl]
  | dq s =>
    simp only [validTok, List.all_eq_true] at hv
    simp only [renderTok, List.cons_append, List.append_assoc, List.singleton_append]
    rw [tokenize_dq]
    simp only [List.nil_append]
    have htk : (s ++ '"' :: ' ' :: l).takeWhile ndq = s := by
      rw [List.takeWhile_append_of_pos hv]
      simp [List.takeWhile_cons, show ndq '"' = false from rfl]
    have hdr : (s ++ '"' :: ' ' :: l).dropWhile ndq = '"' :: ' ' :: l := by
      rw [List.dropWhile_append_of_pos hv]
      simp [List.dropWhile_cons, show ndq '"' = false from rfl]
    rw [htk, hdr]
    simp only [List.drop_succ_cons, List.drop_zero]
    rw [tokenize_ws ' ' l rfl]

theorem tokenize_render_single (t : Tok) (hv : validTok t = true) :
    tokenize (renderTok t) = [t] := by
  cases t with
  | word w =>
    simp only [validTok, Bool.and_eq_true, List.all_eq_true] at hv
    obtain ⟨hne, hall⟩ := hv
    cases w with
    | nil => simp at hne
    | cons c wr =>
      have hc := wordC_spec (hall c (List.mem_cons_self c wr))
      simp only [renderTok]
      rw [tokenize_word c _ hc.1 hc.2.1 hc.2.2]
      rw [takeWhile_all (fun a ha => hall a (List.mem_cons_of_mem c ha))]
      rw [dropWhile_all (fun a ha => hall a (List.mem_cons_of_mem c ha))]
      rfl
  | sq s =>
    simp only [validTok, List.all_eq_true] at hv
    simp only [renderTok]
    rw [tokenize_sq]
    have htk : (s ++ ['\'']).takeWhile nsq = s := by
      rw [List.takeWhile_append_of_pos hv]
      simp [List.takeWhile_cons, show nsq '\'' = false from rfl]
    have hdr : (s ++ ['\'']).dropWhile nsq = ['\''] := by
      rw [List.dropWhile_append_of_pos hv]
      simp [List.dropWhile_cons, show nsq '\'' = false from rfl]
    rw [htk, hdr]
    rfl
  | dq s =>
    simp only [validTok, List.all_eq_true] at hv
    simp only [renderTok]
    rw [tokenize_dq]
    have htk : (s ++ ['"']).takeWhile ndq = s := by
      rw [List.takeWhile_append_of_pos hv]
      simp [List.takeWhile_cons, show ndq '"' = false from rfl]
    have hdr : (s ++ ['"']).dropWhile ndq = ['"'] := by
      rw [List.dropWhile_append_of_pos hv]
      simp [List.dropWhile_cons, show ndq '"' = false from rfl]
    rw [htk, hdr]
    rfl

theorem tokenize_renderToks (ts : List Tok) (hv : ∀ t ∈ ts, validTok t = true) :
    tokenize (renderToks ts) = ts := by
  induction ts with
  | nil => exact tokenize_nil
  | cons t rest ih =>
    cases rest with
    | nil => exact tokenize_render_single t (hv t (List.mem_cons_self t []))
    | cons t2 ts2 =>
      show tokenize (renderTok t ++ ' ' :: renderToks (t2 :: ts2)) = t :: t2 :: ts2
      rw [tokenize_render_cons t _ (hv t (List.mem_cons_self t _))]
      rw [ih fun x hx => hv x (List.mem_cons_of_mem t hx)]

/-! ### The canonical rendering needs no stripping and is quote-balanced -/

theorem renderTok_ne_nil {t : Tok} (hv : validTok t = true) : renderTok t ≠ [] := by
  cases t with
  | word w =>
    simp only [validTok, Bool.and_eq_true] at hv
    cases w with
    | nil => simp at hv
    | cons c wr => simp [renderTok]
  | sq s => simp [renderTok]
  | dq s => simp [renderTok]

theorem renderTok_head_not_ws {t : Tok} (hv : validTok t = true) :
    ∀ c, (renderTok t).head? = some c → pyWs c = false := by
  cases t with
  | word w =>
    simp only [validTok, Bool.and_eq_true, List.all_eq_true] at hv
    obtain ⟨hne, hall⟩ := hv
    cases w with
    | nil => simp at hne
    | cons a wr =>
      intro c hc
      simp only [renderTok, List.head?_cons, Option.some_inj] at hc
      subst hc
      exact (wordC_spec (hall a (List.mem_cons_self a wr))).1
  | sq s =>
    intro c hc
    simp only [renderTok, List.head?_cons, Option.some_inj] at hc
    subst hc
    rfl
  | dq s =>
    intro c hc
    simp only [renderTok, List.head?_cons, Option.some_inj] at hc
    subst hc
    rfl

theorem mem_of_getLast? {l : List α} {a : α} (h : l.getLast? = some a) : a ∈ l := by
  have h2 : l.reverse.head? = some a := by rw [List.head?_reverse]; exact h
  have h3 : a ∈ l.reverse := List.mem_of_mem_head? (by simp [h2])
  simpa using h3

theorem renderTok_last_not_ws {t : Tok} (hv : validTok t = true) :
    ∀ c, (renderTok t).getLast? = some c → pyWs c = false := by
  cases t with
  | word w =>
    simp only [validTok, Bool.and_eq_true, List.all_eq_true] at hv
    intro c hc
    exact (wordC_spec (hv.2 c (mem_of_getLast? hc))).1
  | sq s =>
    intro c hc
    simp only [renderTok] at hc
    rw [show ('\'' :: (s ++ ['\''])) = ('\'' :: s) ++ ['\''] from by simp,
      List.getLast?_concat] at hc
    simp only [Option.some_inj] at hc
    subst hc
    rfl
  | dq s =>
    intro c hc
    simp only [renderTok] at hc
    rw [show ('"' :: (s ++ ['"'])) = ('"' :: s) ++ ['"'] from by simp,
      List.getLast?_concat] at hc
    simp only [Option.some_inj] at hc
    subst hc
    rfl

theorem renderToks_ne_nil {t : Tok} (ts : List Tok) (hv : validTok t = true) :
    renderToks (t :: ts) ≠ [] := by
  cases ts with
  | nil => exact renderTok_ne_nil hv
  | cons t2 ts2 =>
    show renderTok t ++ ' ' :: renderToks (t2 :: ts2) ≠ []
    simp

theorem renderToks_head_not_ws (ts : List Tok) (hv : ∀ t ∈ ts, validTok t = true) :
    ∀ c, (renderToks ts).head? = some c → pyWs c = false := by
  cases ts with
  | nil => intro c hc; simp [renderToks] at hc
  | cons t rest =>
    have hvt := hv t (List.mem_cons_self t rest)
    cases rest with
    | nil => exact renderTok_head_not_ws hvt
    | cons t2 ts2 =>
      intro c hc
      rw [show renderToks (t :: t2 :: ts2) = renderTok t ++ ' ' :: renderToks (t2 :: ts2)
        from rfl] at hc
      cases hr : renderTok t with
      | nil => exact absurd hr (renderTok_ne_nil hvt)
      | cons a r =>
        rw [hr] at hc
        simp only [List.cons_append, List.head?_cons, Option.some_inj] at hc
        subst hc
        apply renderTok_head_not_ws hvt
        rw [hr]
        rfl

theorem renderToks_last_not_ws (ts : List Tok) (hv : ∀ t ∈ ts, validTok t = true) :
    ∀ c, (renderToks ts).getLast? = some c → pyWs c = false := by
  induction ts with
  | nil => intro c hc; simp [renderToks] at hc
  | cons t rest ih =>
    have hvt := hv t (List.mem_cons_self t rest)
    cases rest with
    | nil => exact renderTok_last_not_ws hvt
    | cons t2 ts2 =>
      intro c hc
      rw [show renderToks (t :: t2 :: ts2) = renderTok t ++ ' ' :: renderToks (t2 :: ts2)
        from rfl] at hc
      rw [List.getLast?_append_of_ne_nil _ (show (' ' :: renderToks (t2 :: ts2)) ≠ []
        by simp)] at hc
      have hne : renderToks (t2 :: ts2) ≠ [] :=
        renderToks_ne_nil ts2 (hv t2 (List.mem_cons_of_mem t (List.mem_cons_self t2 ts2)))
      rw [show (' ' :: renderToks (t2 :: ts2)) = [' '] ++ renderToks (t2 :: ts2) from rfl,
        List.getLast?_append_of_ne_nil _ hne] at hc
      exact ih (fun x hx => hv x (List.mem_cons_of_mem t hx)) c hc

theorem pyStrip_renderToks (ts : List Tok) (hv : ∀ t ∈ ts, validTok t = true) :
    pyStrip (renderToks ts) = renderToks ts :=
  pyStrip_no_edge_ws _ (renderToks_head_not_ws ts hv) (renderToks_last_not_ws ts hv)

theorem isQ_of_wordC {c : Char} (h : wordC c = true) : isQ c = false := by
  obtain ⟨_, hs, hd⟩ := wordC_spec h
  unfold isQ
  simp [hs, hd]

theorem quoteOk_wrap (q : Char) (ds r : List Char)
    (hds : ∀ d ∈ ds, (d != q) = true) :
    quoteOk (q :: (ds ++ q :: r)) = quoteOk r := by
  rw [quoteOk_cons]
  rw [List.dropWhile_append_of_pos hds]
  rw [List.dropWhile_cons, if_neg (by simp)]

theorem quoteOk_qchars_tok (t : Tok) (hv : validTok t = true) (r : List Char) :
    quoteOk ((renderTok t).filter isQ ++ r) = quoteOk r := by
  cases t with
  | word w =>
    simp only [validTok, Bool.and_eq_true, List.all_eq_true] at hv
    have hnil : (renderTok (Tok.word w)).filter isQ = [] := by
      simp only [renderTok]
      rw [List.filter_eq_nil_iff]
      intro a ha
      simp [isQ_of_wordC (hv.2 a ha)]
    rw [hnil, List.nil_append]
  | sq s =>
    simp only [validTok, List.all_eq_true] at hv
    simp only [renderTok, List.filter_cons, show isQ '\'' = true from rfl, if_pos]
    rw [List.filter_append]
    simp only [List.filter_cons, show isQ '\'' = true from rfl, if_pos, List.filter_nil]
    rw [List.cons_append, List.append_assoc, List.singleton_append]
    apply quoteOk_wrap
    intro d hd
    have hdm := List.mem_filter.mp hd
    have := hv d hdm.1
    unfold nsq at this
    exact this
  | dq s =>
    simp only [validTok, List.all_eq_true] at hv
    simp only [renderTok, List.filter_cons, show isQ '"' = true from rfl, if_pos]
    rw [List.filter_append]
    simp only [List.filter_cons, show isQ '"' = true from rfl, if_pos, List.filter_nil]
    rw [List.cons_append, List.append_assoc, List.singleton_append]
    apply quoteOk_wrap
    intro d hd
    have hdm := List.mem_filter.mp hd
    have := hv d hdm.1
    unfold ndq at this
    exact this

theorem quoteOk_renderToks (ts : List Tok) (hv : ∀ t ∈ ts, validTok t = true) :
    quoteOk ((renderToks ts).filter isQ) = true := by
  induction ts with
  | nil => rfl
  | cons t rest ih =>
    have hvt := hv t (List.mem_cons_self t rest)
    cases rest with
    | nil =>
      show quoteOk ((renderTok t).filter isQ) = true
      have := quoteOk_qchars_tok t hvt []
      rw [List.append_nil] at this
      rw [this]
      rfl
    | cons t2 ts2 =>
      rw [show renderToks (t :: t2 :: ts2) = renderTok t ++ ' ' :: renderToks (t2 :: ts2)
        from rfl]
      rw [List.filter_append, List.filter_cons, show isQ ' ' = false from rfl]
      simp only [Bool.false_eq_true, if_false]
      rw [quoteOk_qchars_tok t hvt]
      exact ih fun x hx => hv x (List.mem_cons_of_mem t hx)

/-! ### The fallback transform preserves quote structure and is idempotent -/

theorem isQ_iff_toNat (c : Char) : isQ c = true ↔ (c.toNat = 39 ∨ c.toNat = 34) := by
  unfold isQ
  simp only [Bool.or_eq_true, decide_eq_true_eq, char_eq_iff_toNat,
    show ('\'').toNat = 39 from rfl, show ('"').toNat = 34 from rfl]

theorem isQ_asciiLower (c : Char) : isQ (asciiLower c) = isQ c := by
  unfold isQ
  rw [show (decide (asciiLower c = '\'') : Bool) = decide (c = '\'') from by
    simp [asciiLower_eq_iff c '\'' (by left; decide)]]
  rw [show (decide (asciiLower c = '"') : Bool) = decide (c = '"') from by
    simp [asciiLower_eq_iff c '"' (by left; decide)]]

theorem asciiLower_fix_of_isQ {c : Char} (h : isQ c = true) : asciiLower c = c := by
  have := (isQ_iff_toNat c).mp h
  apply char_eq_of_toNat
  rw [asciiLower_toNat, if_neg (by omega)]

theorem isQ_not_ws {c : Char} (h : pyWs c = true) : isQ c = false := by
  have := (pyWs_iff_toNat c).mp h
  by_contra hx
  simp only [Bool.not_eq_false] at hx
  have := (isQ_iff_toNat c).mp hx
  omega

theorem filter_isQ_pyReplace (a : Char) (l : List Char)
    (ha : isQ a = false) (hb : isQ ' ' = false) :
    (pyReplaceChar a ' ' l).filter isQ = l.filter isQ := by
  apply filter_map_eq_of_pres
  · intro c
    by_cases hc : c = a
    · subst hc; simp [ha, hb]
    · simp [hc]
  · intro c hc
    have : c ≠ a := by
      intro hx; subst hx; rw [hc] at ha; exact absurd ha (by simp)
    simp [this]

theorem filter_isQ_pyFallback (l : List Char) :
    (pyFallback l).filter isQ = l.filter isQ := by
  unfold pyFallback
  rw [filter_isQ_pyReplace '\t' _ rfl rfl]
  rw [filter_isQ_pyReplace '\n' _ rfl rfl]
  rw [pyStrip_filter_eq isQ _ fun c hc => isQ_not_ws hc]
  unfold pyLower
  exact filter_map_eq_of_pres _ _ _ isQ_asciiLower fun c hc => asciiLower_fix_of_isQ hc

theorem parseOk_pyFallback (l : List Char) : parseOk (pyFallback l) = parseOk l := by
  unfold parseOk
  rw [filter_isQ_pyFallback]

theorem pyReplace_of_no_occur (a b : Char) (l : List Char) (h : ∀ c ∈ l, c ≠ a) :
    pyReplaceChar a b l = l := by
  unfold pyReplaceChar
  rw [show l.map (fun c => if c = a then b else c) = l.map id from
    List.map_congr_left fun c hc => by simp [h c hc]]
  exact l.map_id

theorem no_occur_pyReplace (a b : Char) (l : List Char) (hb : b ≠ a) :
    ∀ c ∈ pyReplaceChar a b l, c ≠ a := by
  intro c hc
  obtain ⟨y, _, rfl⟩ := List.mem_map.mp hc
  by_cases hy : y = a
  · simp [hy, hb]
  · simp [hy]

theorem mem_pyReplace_of_mem (a b : Char) (l : List Char) {c : Char}
    (hc : c ∈ pyReplaceChar a b l) : c = b ∨ c ∈ l := by
  obtain ⟨y, hy, rfl⟩ := List.mem_map.mp hc
  by_cases h : y = a
  · left; simp [h]
  · right; simpa [h] using hy

theorem asciiLower_comm_replace (a : Char) (l : List Char)
    (hq : a.toNat < 65 ∨ (90 < a.toNat ∧ a.toNat < 97)) :
    pyLower (pyReplaceChar a ' ' l) = pyReplaceChar a ' ' (pyLower l) := by
  unfold pyLower pyReplaceChar
  rw [List.map_map, List.map_map]
  apply List.map_congr_left
  intro c _
  show asciiLower (if c = a then ' ' else c) = if asciiLower c = a then ' ' else asciiLower c
  by_cases hc : c = a
  · rw [if_pos hc, if_pos ((asciiLower_eq_iff c a hq).mpr hc)]
    subst hc
    decide
  · rw [if_neg hc, if_neg (fun hx => hc ((asciiLower_eq_iff c a hq).mp hx))]

theorem pyLower_pyStrip (l : List Char) :
    pyLower (pyStrip l) = pyStrip (pyLower l) := by
  have hfun : (pyWs ∘ asciiLower) = pyWs := funext pyWs_asciiLower
  have key : ∀ (m : List Char), (m.map asciiLower).dropWhile pyWs =
      (m.dropWhile pyWs).map asciiLower := by
    intro m
    rw [List.dropWhile_map, hfun]
  show (pyStrip l).map asciiLower = pyStrip (l.map asciiLower)
  unfold pyStrip
  rw [key l, ← List.map_reverse, key, ← List.map_reverse]

theorem head_dropWhile_not (p : α → Bool) (l : List α) :
    ∀ c, (l.dropWhile p).head? = some c → p c = false := by
  induction l with
  | nil => intro c hc; simp at hc
  | cons a r ih =>
    intro c hc
    by_cases h : p a = true
    · rw [List.dropWhile_cons, if_pos h] at hc
      exact ih c hc
    · rw [List.dropWhile_cons, if_neg h] at hc
      simp only [List.head?_cons, Option.some_inj] at hc
      subst hc
      simpa using h

theorem pyStrip_head_not_ws (l : List Char) :
    ∀ c, (pyStrip l).head? = some c → pyWs c = false := by
  intro c hc
  unfold pyStrip at hc
  cases hG : (l.dropWhile pyWs).reverse.dropWhile pyWs with
  | nil => rw [hG] at hc; simp at hc
  | cons g gr =>
    rw [hG] at hc
    rw [List.head?_reverse] at hc
    have hsplit : (l.dropWhile pyWs).reverse.takeWhile pyWs ++ (g :: gr) =
        (l.dropWhile pyWs).reverse := by
      rw [← hG]
      exact List.takeWhile_append_dropWhile pyWs _
    have hlast : (l.dropWhile pyWs).reverse.getLast? = some c := by
      rw [← hsplit, List.getLast?_append_of_ne_nil _ (show (g :: gr) ≠ [] by simp)]
      exact hc
    rw [List.getLast?_reverse] at hlast
    exact head_dropWhile_not pyWs l c hlast

theorem pyStrip_last_not_ws (l : List Char) :
    ∀ c, (pyStrip l).getLast? = some c → pyWs c = false := by
  intro c hc
  unfold pyStrip at hc
  rw [List.getLast?_reverse] at hc
  exact head_dropWhile_not pyWs _ c hc

theorem pyFallback_no_nl (l : List Char) : ∀ c ∈ pyFallback l, c ≠ '\n' := by
  intro c hc
  unfold pyFallback at hc
  rcases mem_pyReplace_of_mem '\t' ' ' _ hc with h | h
  · subst h; decide
  · exact no_occur_pyReplace '\n' ' ' _ (by decide) c h

theorem pyFallback_no_tab (l : List Char) : ∀ c ∈ pyFallback l, c ≠ '\t' := by
  intro c hc
  unfold pyFallback at hc
  exact no_occur_pyReplace '\t' ' ' _ (by decide) c hc

theorem rep_not_ws {c : Char} (a : Char) (h : pyWs c = false)
    (ha : pyWs a = true) : pyWs (if c = a then ' ' else c) = false := by
  by_cases hc : c = a
  · subst hc; rw [h] at ha; exact absurd ha (by simp)
  · rw [if_neg hc]; exact h

theorem pyFallback_head_not_ws (l : List Char) :
    ∀ c, (pyFallback l).head? = some c → pyWs c = false := by
  intro c hc
  unfold pyFallback pyReplaceChar at hc
  rw [List.head?_map] at hc
  rw [List.head?_map] at hc
  cases hS : (pyStrip (pyLower l)).head? with
  | none => rw [hS] at hc; simp at hc
  | some d =>
    rw [hS] at hc
    simp only [Option.map_some', Option.some_inj] at hc
    have hd : pyWs d = false := pyStrip_head_not_ws _ d hS
    subst hc
    exact rep_not_ws '\t' (rep_not_ws '\n' hd rfl) rfl

theorem pyFallback_last_not_ws (l : List Char) :
    ∀ c, (pyFallback l).getLast? = some c → pyWs c = false := by
  intro c hc
  unfold pyFallback pyReplaceChar at hc
  rw [List.getLast?_map] at hc
  rw [List.getLast?_map] at hc
  cases hS : (pyStrip (pyLower l)).getLast? with
  | none => rw [hS] at hc; simp at hc
  | some d =>
    rw [hS] at hc
    simp only [Option.map_some', Option.some_inj] at hc
    have hd : pyWs d = false := pyStrip_last_not_ws _ d hS
    subst hc
    exact rep_not_ws '\t' (rep_not_ws '\n' hd rfl) rfl

theorem pyLower_pyFallback (l : List Char) :
    pyLower (pyFallback l) = pyFallback l := by
  unfold pyFallback
  rw [asciiLower_comm_replace '\t' _ (by left; decide)]
  rw [asciiLower_comm_replace '\n' _ (by left; decide)]
  rw [pyLower_pyStrip, pyLower_pyLower]

theorem pyFallback_idem (l : List Char) :
    pyFallback (pyFallback l) = pyFallback l := by
  conv_lhs => rw [pyFallback]
  rw [pyLower_pyFallback]
  rw [pyStrip_no_edge_ws _ (pyFallback_head_not_ws l) (pyFallback_last_not_ws l)]
  rw [pyReplace_of_no_occur '\n' ' ' _ (pyFallback_no_nl l)]
  rw [pyReplace_of_no_occur '\t' ' ' _ (pyFallback_no_tab l)]

/-! ### `normalize_sql` path characterizations and idempotence -/

theorem data_mk (l : List Char) : (String.mk l).data = l := rfl

theorem canonToks_valid (l : List Char) :
    ∀ t ∈ (tokenize l).map canonTok, validTok t = true := by
  intro t ht
  obtain ⟨y, hy, rfl⟩ := List.mem_map.mp ht
  exact canonTok_valid (tokenize_valid' _ y hy)

theorem normalize_primary (s : String) (h : parseOk s.data = true) :
    normalize_sql s = String.mk (renderToks ((tokenize s.data).map canonTok)) := by
  unfold normalize_sql
  rw [if_pos h]
  congr 1
  exact pyStrip_renderToks _ (canonToks_valid s.data)

theorem normalize_fallback (s : String) (h : parseOk s.data = false) :
    normalize_sql s = String.mk (pyFallback s.data) := by
  unfold normalize_sql
  rw [if_neg (by simp [h])]

theorem normalize_sql_idem (s : String) :
    normalize_sql (normalize_sql s) = normalize_sql s := by
  by_cases h : parseOk s.data = true
  · rw [normalize_primary s h]
    have hv := canonToks_valid s.data
    have hN : parseOk (renderToks ((tokenize s.data).map canonTok)) = true := by
      unfold parseOk
      exact quoteOk_renderToks _ hv
    rw [normalize_primary _ (by rw [data_mk]; exact hN)]
    rw [data_mk, tokenize_renderToks _ hv]
    have hmap : ((tokenize s.data).map canonTok).map canonTok =
        (tokenize s.data).map canonTok := by
      rw [List.map_map]
      exact List.map_congr_left fun t _ => canonTok_idem t
    rw [hmap]
  · have h' : parseOk s.data = false := by simpa using h
    rw [normalize_fallback s h']
    rw [normalize_fallback _ (by rw [data_mk, parseOk_pyFallback]; exact h')]
    rw [data_mk, pyFallback_idem]

/-! ### Step 1 is the identity on texts without a double quote -/

theorem runPat_split : ∀ (ps : List PatAtom) (l p r : List Char),
    runPat ps l = some (p, r) → l = p ++ r := by
  intro ps
  induction ps with
  | nil =>
    intro l p r h
    simp only [runPat, Option.some_inj, Prod.mk.injEq] at h
    rw [← h.1, ← h.2]
    rfl
  | cons a ps ih =>
    intro l p r h
    cases a with
    | ch c =>
      cases l with
      | nil => simp [runPat] at h
      | cons x xr =>
        simp only [runPat] at h
        by_cases hx : x = c
        · rw [if_pos hx, Option.map_eq_some'] at h
          obtain ⟨⟨p1, r1⟩, hp1, heq⟩ := h
          simp only [Prod.mk.injEq] at heq
          rw [← heq.1, ← heq.2]
          rw [ih xr p1 r1 hp1]
          rfl
        · rw [if_neg hx] at h
          exact absurd h (by simp)
    | ci lo up =>
      cases l with
      | nil => simp [runPat] at h
      | cons x xr =>
        simp only [runPat] at h
        by_cases hx : (x = lo || x = up) = true
        · rw [if_pos hx, Option.map_eq_some'] at h
          obtain ⟨⟨p1, r1⟩, hp1, heq⟩ := h
          simp only [Prod.mk.injEq] at heq
          rw [← heq.1, ← heq.2]
          rw [ih xr p1 r1 hp1]
          rfl
        · rw [if_neg hx] at h
          exact absurd h (by simp)
    | wsStar =>
      simp only [runPat, Option.map_eq_some'] at h
      obtain ⟨⟨p1, r1⟩, hp1, heq⟩ := h
      simp only [Prod.mk.injEq] at heq
      rw [← heq.1, ← heq.2]
      rw [List.append_assoc, ← ih _ p1 r1 hp1]
      exact (List.takeWhile_append_dropWhile pyWs l).symm
    | wsPlus =>
      simp only [runPat] at h
      by_cases he : (l.takeWhile pyWs).isEmpty = true
      · rw [if_pos he] at h
        exact absurd h (by simp)
      · rw [if_neg he, Option.map_eq_some'] at h
        obtain ⟨⟨p1, r1⟩, hp1, heq⟩ := h
        simp only [Prod.mk.injEq] at heq
        rw [← heq.1, ← heq.2]
        rw [List.append_assoc, ← ih _ p1 r1 hp1]
        exact (List.takeWhile_append_dropWhile pyWs l).symm

theorem matchDQ_mem {l content r2 : List Char}
    (h : matchDQ l = some (content, r2)) : '"' ∈ l := by
  cases l with
  | nil => simp [matchDQ] at h
  | cons x xr =>
    by_cases hx : x = '"'
    · rw [hx]; exact List.mem_cons_self _ _
    · exfalso
      have hred : matchDQ (x :: xr) =
          if x = '"' then
            (match xr.dropWhile ndq with
             | _ :: r2 =>
               if (xr.takeWhile ndq).isEmpty then none else some (xr.takeWhile ndq, r2)
             | [] => none)
          else none := rfl
      rw [hred, if_neg hx] at h
      exact absurd h (by simp)

theorem matchOpQuote_dq_mem {m : OpPat} {prev : Option Char} {l p content r2 : List Char}
    (h : matchOpQuote m prev l = some (p, content, r2)) : '"' ∈ l := by
  unfold matchOpQuote at h
  by_cases hb : (m.bound && !wordBoundOk prev) = true
  · rw [if_pos hb] at h
    exact absurd h (by simp)
  · rw [if_neg hb] at h
    cases hr : runPat m.atoms l with
    | none => rw [hr] at h; exact absurd h (by simp)
    | some pr =>
      rw [hr, Option.some_bind] at h
      rw [Option.map_eq_some'] at h
      obtain ⟨cr, hcr, _⟩ := h
      rw [runPat_split m.atoms l pr.1 pr.2 (by rw [hr, Prod.mk.eta])]
      exact List.mem_append.mpr (Or.inr (matchDQ_mem hcr))

theorem subMatQuote_id (m : OpPat) :
    ∀ (n : Nat) (prev : Option Char) (l : List Char), '"' ∉ l →
    subMatQuote m n prev l = l := by
  intro n
  induction n with
  | zero => intro prev l _; rfl
  | succ n ih =>
    intro prev l hq
    cases l with
    | nil => rfl
    | cons c rest =>
      show (match matchOpQuote m prev (c :: rest) with
        | some (p, content, rest2) =>
          p ++ '\'' :: (content ++ '\'' :: subMatQuote m n (some '"') rest2)
        | none => c :: subMatQuote m n (some c) rest) = c :: rest
      cases hm : matchOpQuote m prev (c :: rest) with
      | some pcr => exact absurd (matchOpQuote_dq_mem (by rw [hm])) hq
      | none =>
        rw [ih (some c) rest fun hx => hq (List.mem_cons_of_mem c hx)]

theorem sqliteStep1_id (l : List Char) (hq : '"' ∉ l) : sqliteStep1 l = l := by
  show step1Pats.foldl (fun acc m => applyPat m acc) l = l
  have : ∀ (pats : List OpPat), pats.foldl (fun acc m => applyPat m acc) l = l := by
    intro pats
    induction pats with
    | nil => rfl
    | cons m pats ih =>
      show (m :: pats).foldl (fun acc m => applyPat m acc) l = l
      rw [List.foldl_cons, show applyPat m l = l from subMatQuote_id m l.length none l hq]
      exact ih
  exact this step1Pats

theorem string_mk_data (s : String) : String.mk s.data = s := rfl

theorem groupByStep_id (l : List Char) (h2 : multiTableGroupBy l = false) :
    groupByStep l = l := by
  unfold groupByStep
  split
  · rfl
  · next iqt heq =>
    have h2' : hasAlias (pyStrip (sliceL l iqt.2.1 iqt.2.2)) = false := by
      have hcopy := h2
      unfold multiTableGroupBy at hcopy
      rw [heq] at hcopy
      exact hcopy
    rw [if_neg (by simp [h2'])]

theorem sqlite_to_postgres_id (s : String) (h1 : '"' ∉ s.data)
    (h2 : multiTableGroupBy s.data = false) : sqlite_to_postgres_sql s = s := by
  unfold sqlite_to_postgres_sql
  rw [sqliteStep1_id s.data h1, groupByStep_id s.data h2, string_mk_data]

/-! ## Claim theorems -/

/-- C2: for every executor behaviour, generated SQL, gold SQL and database:
if executing the translated gold SQL yields an error (a truthy error
string), `check_execution_match` returns
`(false, "Gold SQL failed: " ++ error)` regardless of the generated SQL;
otherwise if the generated SQL errors it returns `(false, that error)`;
otherwise it returns the equality of the two sorted row sequences with no
error. -/
theorem c2_execution_match_attribution :
    ∀ (execSql : String → String → List String × Option String)
      (gen gold db : String),
    (pyTruthyStr (execSql (sqlite_to_postgres_sql gold) db).2 = true →
      check_execution_match execSql gen gold db =
        (false, some ("Gold SQL failed: " ++
          (execSql (sqlite_to_postgres_sql gold) db).2.getD ""))) ∧
    (pyTruthyStr (execSql (sqlite_to_postgres_sql gold) db).2 = false →
      pyTruthyStr (execSql gen db).2 = true →
      check_execution_match execSql gen gold db = (false, (execSql gen db).2)) ∧
    (pyTruthyStr (execSql (sqlite_to_postgres_sql gold) db).2 = false →
      pyTruthyStr (execSql gen db).2 = false →
      check_execution_match execSql gen gold db =
        ((execSql (sqlite_to_postgres_sql gold) db).1 == (execSql gen db).1, none)) := by
  intro execSql gen gold db
  refine ⟨?_, ?_, ?_⟩
  · intro h
    unfold check_execution_match
    rw [if_pos h]
  · intro h1 h2
    unfold check_execution_match
    rw [if_neg (by simp [h1]), if_pos h2]
  · intro h1 h2
    unfold check_execution_match
    rw [if_neg (by simp [h1]), if_neg (by simp [h2])]

/-- C2 witness: a gold execution error is attributed to the gold SQL. -/
theorem c2_execution_match_attribution_witness :
    check_execution_match (fun _ _ => ([], some "relation missing"))
      "SELECT a" "SELECT a" "db" = (false, some ("Gold SQL failed: " ++ "relation missing")) :=
  (c2_execution_match_attribution (fun _ _ => ([], some "relation missing"))
    "SELECT a" "SELECT a" "db").1 rfl

/-- C4: the safe executor converts try-block failures into an error-string
result immediately (no retry, no waits), returns fetched rows sorted,
retries connection-acquisition operational failures up to 3 attempts with
waits 2 s then 4 s before re-raising, recovers when a retry succeeds, and
the wait schedule is base 2, doubling, capped at 8. -/
theorem c4_executor_retry :
    ∀ (oracle : Nat → ConnAttempt) (msg : String) (rows : List String),
    (oracle 1 = .body (.error msg) →
      execute_sql_safely oracle = (.ok ([], some msg), [])) ∧
    (oracle 1 = .body (.ok rows) →
      execute_sql_safely oracle = (.ok (sortRows rows, none), [])) ∧
    (oracle 1 = .connFail → oracle 2 = .connFail → oracle 3 = .connFail →
      execute_sql_safely oracle = (.error "OperationalError", [2, 4])) ∧
    (oracle 1 = .connFail → oracle 2 = .body (.ok rows) →
      execute_sql_safely oracle = (.ok (sortRows rows, none), [2])) ∧
    (backoffWait 1 = 2 ∧ backoffWait 2 = 4 ∧
      (∀ n, backoffWait n ≤ 8) ∧
      (∀ n, backoffWait (n + 2) = min 8 (2 * backoffWait (n + 1)))) := by
  intro oracle msg rows
  refine ⟨?_, ?_, ?_, ?_, ?_, ?_, ?_, ?_⟩
  · intro h1
    simp [execute_sql_safely, execAttempts, h1, attemptResult]
  · intro h1
    simp [execute_sql_safely, execAttempts, h1, attemptResult]
  · intro h1 h2 h3
    simp only [execute_sql_safely, execAttempts, h1, h2, h3]
    norm_num [backoffWait]
  · intro h1 h2
    simp only [execute_sql_safely, execAttempts, h1, h2, attemptResult]
    norm_num [backoffWait]
  · rfl
  · rfl
  · intro n
    exact Nat.min_le_left _ _
  · intro n
    unfold backoffWait
    rw [show n + 2 - 1 = n + 1 from rfl, show n + 1 - 1 = n from rfl, pow_succ]
    have hx : 1 ≤ 2 ^ n := Nat.one_le_two_pow
    omega

/-- C4 witness: one connection failure then success — retried once with a
2-second wait, rows sorted. -/
theorem c4_executor_retry_witness :
    execute_sql_safely
        (fun k => if k = 1 then ConnAttempt.connFail
          else ConnAttempt.body (Except.ok ["row2", "row1"])) =
      (Except.ok (sortRows ["row2", "row1"], none), [2]) :=
  ((c4_executor_retry
      (fun k => if k = 1 then ConnAttempt.connFail
        else ConnAttempt.body (Except.ok ["row2", "row1"]))
      "" ["row2", "row1"]).2.2.2.1) rfl rfl

/-- C5 counterexample: the claim `exact_match(s, s)` fails for a string
with a double-quoted literal after `=`: the translator rewrites only the
gold copy, so the two sides normalize differently. -/
theorem c5_counterexample :
    check_exact_match "SELECT * FROM t WHERE x = \"Paris\""
      "SELECT * FROM t WHERE x = \"Paris\"" = false := by decide

/-- C5 amended: `check_exact_match s s` is true for every SQL string that
the gold-side dialect translation leaves unchanged. -/
theorem c5_exact_match_refl :
    ∀ s : String, sqlite_to_postgres_sql s = s → check_exact_match s s = true := by
  intro s h
  unfold check_exact_match
  rw [h]
  simp

/-- C5 witness: reflexivity of the exact match on a translation-fixed
string. -/
theorem c5_exact_match_refl_witness :
    sqlite_to_postgres_sql "SELECT name FROM users" = "SELECT name FROM users" ∧
      check_exact_match "SELECT name FROM users" "SELECT name FROM users" = true :=
  ⟨by decide, c5_exact_match_refl "SELECT name FROM users" (by decide)⟩

/-- C6 counterexample: the dialect translator does not map `SELECT "Paris"`
to `SELECT 'Paris'` — the double-quote conversion applies only after a
comparison/membership operator, and no operator precedes this literal. -/
theorem c6_counterexample :
    ¬ (sqlite_to_postgres_sql "SELECT \"Paris\"" = "SELECT 'Paris'") := by decide

/-- C6 amended: the translator leaves `SELECT "Paris"` unchanged, and the
normalized form of the translated string is stable across repeated
normalization. -/
theorem c6_translator_paris :
    sqlite_to_postgres_sql "SELECT \"Paris\"" = "SELECT \"Paris\"" ∧
      normalize_sql (normalize_sql (sqlite_to_postgres_sql "SELECT \"Paris\"")) =
        normalize_sql (sqlite_to_postgres_sql "SELECT \"Paris\"") :=
  ⟨by decide, normalize_sql_idem _⟩

/-- C7: a gold statement with no double-quote character and whose GROUP BY
clause (if any) uses no table-qualified identifiers is unchanged by the
translator, hence has the same canonical form before and after
translation. -/
theorem c7_translator_identity :
    ∀ s : String, '"' ∉ s.data → multiTableGroupBy s.data = false →
    sqlite_to_postgres_sql s = s ∧
      normalize_sql (sqlite_to_postgres_sql s) = normalize_sql s := by
  intro s h1 h2
  have he := sqlite_to_postgres_id s h1 h2
  exact ⟨he, by rw [he]⟩

/-- C7 witness: a single-table GROUP BY statement is fixed by the
translator. -/
theorem c7_translator_identity_witness :
    sqlite_to_postgres_sql "SELECT name FROM users GROUP BY name" =
      "SELECT name FROM users GROUP BY name" :=
  (c7_translator_identity "SELECT name FROM users GROUP BY name"
    (by decide) (by decide)).1

/-- C8: normalization is idempotent on every string, on both the
parse-and-re-render path and the fallback path. -/
theorem c8_normalize_idempotent :
    ∀ s : String, normalize_sql (normalize_sql s) = normalize_sql s :=
  normalize_sql_idem

/-- C9: `normalize_sql` is total — on every parse failure it returns the
input lowercased, stripped, with each newline and tab replaced by one space
individually; the concrete conjunct shows two adjacent newlines become two
spaces (runs are not collapsed). -/
theorem c9_normalize_fallback_total :
    (∀ s : String, parseOk s.data = false →
      normalize_sql s = String.mk (pyReplaceChar '\t' ' '
        (pyReplaceChar '\n' ' ' (pyStrip (pyLower s.data))))) ∧
    normalize_sql "SELECT 'a\n\nb" = "select 'a  b" := by
  constructor
  · intro s h
    exact normalize_fallback s h
  · decide

/-- C9 witness: the fallback formula evaluated on an unbalanced-quote
input. -/
theorem c9_normalize_fallback_total_witness :
    parseOk ("SELECT 'x" : String).data = false ∧
      normalize_sql "SELECT 'x" = String.mk (pyReplaceChar '\t' ' '
        (pyReplaceChar '\n' ' ' (pyStrip (pyLower ("SELECT 'x" : String).data)))) :=
  ⟨by decide, c9_normalize_fallback_total.1 "SELECT 'x" (by decide)⟩

/-- C1 (code bug): with budget $1.00 and two $0.75 questions, the second
`record_cost` raises `BudgetExceededError` — yet the run finishes with
status `completed` (never `failed`/`budget_exceeded`), the in-process total
ends at $1.50 above the ceiling, a result row is still written for the
over-budget question carrying the swallowed exception text at zero cost,
and only the first question's cost is persisted. -/
theorem c1_budget_exceeded_swallowed :
    (record_cost 1000000 750000 "baseline" 750000 initStore).2 =
      Except.error "BudgetExceededError: Budget limit exceeded" ∧
    (run_benchmark budgetEnv 1000000 budgetData budgetConfig).1.status = "completed" ∧
    (run_benchmark budgetEnv 1000000 budgetData budgetConfig).1.statusReason =
      some "completed" ∧
    (run_benchmark budgetEnv 1000000 budgetData budgetConfig).2 = 1500000 ∧
    (1000000 : Int) < (run_benchmark budgetEnv 1000000 budgetData budgetConfig).2 ∧
    (run_benchmark budgetEnv 1000000 budgetData budgetConfig).1.costEvents =
      [("baseline", 750000)] ∧
    (run_benchmark budgetEnv 1000000 budgetData budgetConfig).1.results.length = 2 ∧
    ((run_benchmark budgetEnv 1000000 budgetData budgetConfig).1.results.getLast?).map
        (fun r => r.baseline.map fun b => (b.error, b.cost_usd)) =
      some (some (some "BudgetExceededError: Budget limit exceeded", 0)) := by
  refine ⟨by rfl, ?_, ?_, ?_, ?_, ?_, ?_, ?_⟩ <;> decide

/-! ### Cancellation-polling lemmas (C3) -/

theorem record_cost_store_ok (budget cost : Int) (ap : String) (tc : Int)
    (st st2 : StoreState) (h : (record_cost budget cost ap tc st).2 = .ok st2) :
    st2.pollEvents = st.pollEvents ∧ st2.results = st.results ∧
      st2.progressEvents = st.progressEvents := by
  unfold record_cost at h
  by_cases hb : budget < tc + cost
  · rw [if_pos hb] at h
    exact absurd h (by simp)
  · rw [if_neg hb] at h
    simp only [Except.ok.injEq] at h
    rw [← h]
    exact ⟨rfl, rfl, rfl⟩

theorem process_baseline_store (env : RunEnv) (budget : Int) (q : SpiderQuestion)
    (tc : Int) (st : StoreState) :
    (process_question_baseline env budget q tc st).2.2.pollEvents = st.pollEvents ∧
    (process_question_baseline env budget q tc st).2.2.results = st.results ∧
    (process_question_baseline env budget q tc st).2.2.progressEvents =
      st.progressEvents := by
  unfold process_question_baseline
  split
  · exact ⟨rfl, rfl, rfl⟩
  · next sql cost tokens hgen =>
    split
    · exact ⟨rfl, rfl, rfl⟩
    · next tc2 st2 heq =>
      exact record_cost_store_ok budget cost "baseline" tc st st2 (by rw [heq])

theorem process_enhanced_store (env : RunEnv) (budget : Int) (q : SpiderQuestion)
    (tc : Int) (st : StoreState) :
    (process_question_enhanced env budget q tc st).2.2.pollEvents = st.pollEvents ∧
    (process_question_enhanced env budget q tc st).2.2.results = st.results ∧
    (process_question_enhanced env budget q tc st).2.2.progressEvents =
      st.progressEvents := by
  unfold process_question_enhanced
  split
  · exact ⟨rfl, rfl, rfl⟩
  · next sql cost tokens hgen =>
    split
    · exact ⟨rfl, rfl, rfl⟩
    · next tc2 st2 heq =>
      exact record_cost_store_ok budget cost "enhanced" tc st st2 (by rw [heq])

/-! ### Loader lemmas (C10) -/

theorem loadGo_zero_limit (databases : Option (List String)) :
    ∀ (data : List SpiderItem) (i count : Nat),
    loadGo databases (some 0) data i count = loadGo databases none data i count := by
  intro data
  induction data with
  | nil => intro i count; rfl
  | cons item rest ih =>
    intro i count
    unfold loadGo
    by_cases hs : (pyTruthyList databases && !((databases.getD []).contains item.db_id)) = true
    · rw [if_pos hs, if_pos hs]
      exact ih (i + 1) count
    · rw [if_neg hs, if_neg hs]
      rw [if_neg (by simp [pyTruthyInt]), if_neg (by simp [pyTruthyInt])]
      rw [ih (i + 1) (count + 1)]

theorem skipCond_false (dbs : Option (List String)) (h : pyTruthyList dbs = false)
    (d : String) : (pyTruthyList dbs && !((dbs.getD []).contains d)) = false := by
  simp [h]

theorem loadGo_empty_filter (limit : Option Int) :
    ∀ (data : List SpiderItem) (i count : Nat),
    loadGo (some []) limit data i count = loadGo none limit data i count := by
  intro data
  induction data with
  | nil => intro i count; rfl
  | cons item rest ih =>
    intro i count
    unfold loadGo
    rw [skipCond_false (some []) rfl item.db_id, skipCond_false none rfl item.db_id]
    simp only [Bool.false_eq_true, if_false]
    by_cases hl : (pyTruthyInt limit && (limit.getD 0 ≤ (count + 1 : Int))) = true
    · rw [if_pos hl, if_pos hl]
    · rw [if_neg hl, if_neg hl, ih (i + 1) (count + 1)]

theorem loadGo_length_le (databases : Option (List String)) (n : Nat) (hn : 0 < n) :
    ∀ (data : List SpiderItem) (i count : Nat), count < n →
    (loadGo databases (some (n : Int)) data i count).length ≤ n - count := by
  intro data
  induction data with
  | nil => intro i count _; simp [loadGo]
  | cons item rest ih =>
    intro i count hc
    unfold loadGo
    by_cases hs : (pyTruthyList databases && !((databases.getD []).contains item.db_id)) = true
    · rw [if_pos hs]
      exact ih (i + 1) count hc
    · rw [if_neg hs]
      by_cases hl : (pyTruthyInt (some (n : Int)) &&
          ((some (n : Int)).getD 0 ≤ (count + 1 : Int))) = true
      · rw [if_pos hl]
        simp only [List.length_singleton]
        omega
      · rw [if_neg hl]
        have hn0 : (n : Int) ≠ 0 := by exact_mod_cast Nat.pos_iff_ne_zero.mp hn
        have hgt : ¬ ((n : Int) ≤ (count + 1 : Int)) := by
          intro hle
          apply hl
          simp [pyTruthyInt, hn0, hle]
        have hcount : count + 1 < n := by
          have : (count + 1 : Int) < n := by omega
          exact_mod_cast this
        have := ih (i + 1) (count + 1) hcount
        simp only [List.length_cons]
        omega

theorem loadGo_filter_mem (l : List String) (limit : Option Int) (hl : l ≠ []) :
    ∀ (data : List SpiderItem) (i count : Nat),
    ∀ q ∈ loadGo (some l) limit data i count, q.database ∈ l := by
  intro data
  induction data with
  | nil => intro i count q hq; simp [loadGo] at hq
  | cons item rest ih =>
    intro i count q hq
    unfold loadGo at hq
    by_cases hs : (pyTruthyList (some l) && !(((some l : Option (List String)).getD []).contains item.db_id)) = true
    · rw [if_pos hs] at hq
      exact ih (i + 1) count q hq
    · rw [if_neg hs] at hq
      have hmem : item.db_id ∈ l := by
        by_cases hmem : item.db_id ∈ l
        · exact hmem
        · exfalso
          apply hs
          have htr : pyTruthyList (some l) = true := by
            simp [pyTruthyList, hl]
          have hco : l.contains item.db_id = false := by
            cases hc : l.contains item.db_id with
            | false => rfl
            | true => exact absurd (by simpa using hc) hmem
          simp [htr, hco, hmem]
      by_cases hlim : (pyTruthyInt limit && (limit.getD 0 ≤ (count + 1 : Int))) = true
      · rw [if_pos hlim] at hq
        simp only [List.mem_singleton] at hq
        subst hq
        exact hmem
      · rw [if_neg hlim] at hq
        rcases List.mem_cons.mp hq with hq | hq
        · subst hq
          exact hmem
        · exact ih (i + 1) (count + 1) q hq

/-- C10: `load_spider_questions` treats limit 0 as no limit; an empty
database filter disables filtering; a positive limit `n` yields at most `n`
questions; and with a non-empty filter every returned question's database is
in the filter list. -/
theorem c10_loader_filter_and_limit :
    ∀ (data : List SpiderItem) (dbs : Option (List String)) (lim : Option Int),
    (load_spider_questions data dbs (some 0) = load_spider_questions data dbs none) ∧
    (load_spider_questions data (some []) lim = load_spider_questions data none lim) ∧
    (∀ n : Nat, 0 < n → (load_spider_questions data dbs (some (n : Int))).length ≤ n) ∧
    (∀ l : List String, l ≠ [] →
      ∀ q ∈ load_spider_questions data (some l) lim, q.database ∈ l) := by
  intro data dbs lim
  refine ⟨?_, ?_, ?_, ?_⟩
  · exact loadGo_zero_limit dbs data 0 0
  · exact loadGo_empty_filter lim data 0 0
  · intro n hn
    have := loadGo_length_le dbs n hn data 0 0 hn
    simpa using this
  · intro l hl q hq
    exact loadGo_filter_mem l lim hl data 0 0 q hq

/-- C10 witness: limit and filter behaviour on a concrete two-item
dataset. -/
theorem c10_loader_filter_and_limit_witness :
    (load_spider_questions [⟨"db1", "a", "s"⟩, ⟨"db2", "b", "s"⟩] none (some 0) =
      load_spider_questions [⟨"db1", "a", "s"⟩, ⟨"db2", "b", "s"⟩] none none) ∧
    (load_spider_questions [⟨"db1", "a", "s"⟩, ⟨"db2", "b", "s"⟩] none
        (some ((1 : Nat) : Int))).length ≤ 1 ∧
    ∀ q ∈ load_spider_questions [⟨"db1", "a", "s"⟩, ⟨"db2", "b", "s"⟩]
        (some ["db1"]) none, q.database ∈ ["db1"] :=
  ⟨(c10_loader_filter_and_limit [⟨"db1", "a", "s"⟩, ⟨"db2", "b", "s"⟩] none none).1,
    (c10_loader_filter_and_limit [⟨"db1", "a", "s"⟩, ⟨"db2", "b", "s"⟩] none none).2.2.1
      1 (by decide),
    (c10_loader_filter_and_limit [⟨"db1", "a", "s"⟩, ⟨"db2", "b", "s"⟩] none none).2.2.2
      ["db1"] (by decide)⟩

theorem loopStep_store (env : RunEnv) (budget : Int) (rt : String) (q : SpiderQuestion)
    (comp f : Nat) (tc : Int) (st : StoreState) :
    (loopStep env budget rt q comp f tc st).2.pollEvents = st.pollEvents ∧
    (loopStep env budget rt q comp f tc st).2.results.length = st.results.length + 1 ∧
    (∀ r ∈ (loopStep env budget rt q comp f tc st).2.results,
      r ∈ st.results ∨ r.question_id = q.question_id) := by
  unfold loopStep
  by_cases hb : (rt == "baseline" || rt == "both") = true <;>
    by_cases he : (rt == "enhanced" || rt == "both") = true <;>
      simp only [hb, he, if_true, if_false, Bool.false_eq_true] <;>
      refine ⟨?_, ?_, ?_⟩ <;>
      (simp [process_baseline_store, process_enhanced_store] <;>
        (intro r hr
         rcases hr with hr | hr
         · exact Or.inl hr
         · subst hr
           exact Or.inr rfl))

theorem runLoop_nocancel (env : RunEnv) (budget : Int) (rt : String) :
    ∀ (qs : List SpiderQuestion) (i comp f : Nat) (tc : Int) (st : StoreState),
    (∀ j, i ≤ j → j < i + qs.length → j % 10 = 0 → env.pollStatus j ≠ "cancelled") →
    (runLoop env budget rt qs i comp f tc st).1.pollEvents =
      st.pollEvents ++ (List.range' i qs.length).filter (fun j => j % 10 == 0) ∧
    (runLoop env budget rt qs i comp f tc st).2.2.2.2 = false := by
  intro qs
  induction qs with
  | nil => intro i comp f tc st _; simp [runLoop]
  | cons q rest ih =>
    intro i comp f tc st hnc
    have hcond : (i % 10 == 0 && (env.pollStatus i == "cancelled")) = false := by
      by_cases h10 : i % 10 = 0
      · have hne := hnc i (Nat.le_refl i) (by simp only [List.length_cons]; omega) h10
        simp [hne]
      · simp [h10]
    simp only [runLoop, hcond, Bool.false_eq_true, if_false]
    have hstep := loopStep_store env budget rt q comp f tc
      (if i % 10 == 0 then { st with pollEvents := st.pollEvents ++ [i] } else st)
    have hrec := ih (i + 1) (comp + 1) f
      (loopStep env budget rt q comp f tc
        (if i % 10 == 0 then { st with pollEvents := st.pollEvents ++ [i] } else st)).1
      (loopStep env budget rt q comp f tc
        (if i % 10 == 0 then { st with pollEvents := st.pollEvents ++ [i] } else st)).2
      (by
        intro j hj1 hj2 hj3
        apply hnc j (by omega) (by simp only [List.length_cons]; omega) hj3)
    refine ⟨?_, hrec.2⟩
    rw [hrec.1, hstep.1]
    simp only [List.length_cons]
    rw [List.range'_succ]
    by_cases h10 : i % 10 = 0
    · have h10b : (i % 10 == 0) = true := by simp [h10]
      rw [if_pos h10b]
      simp [h10, List.filter_cons]
    · have h10b : (i % 10 == 0) = false := by simp [h10]
      rw [if_neg (by simp [h10b])]
      simp [h10, List.filter_cons]

theorem filter_range'_split (p : Nat → Bool) (i n : Nat) :
    (List.range' i (n + 1)).filter p =
      (if p i = true then [i] else []) ++ (List.range' (i + 1) n).filter p := by
  rw [List.range'_succ, List.filter_cons]
  by_cases hp : p i = true <;> simp [hp]

theorem runLoop_cancel (env : RunEnv) (budget : Int) (rt : String) (c k : Nat)
    (hk10 : k % 10 = 0) (hck : c ≤ k)
    (hfirst : ∀ j, j % 10 = 0 → c ≤ j → k ≤ j)
    (hp : ∀ j, (env.pollStatus j = "cancelled") ↔ c ≤ j) :
    ∀ (qs : List SpiderQuestion) (i comp f : Nat) (tc : Int) (st : StoreState),
    i ≤ k → k < i + qs.length →
    (runLoop env budget rt qs i comp f tc st).2.2.2.2 = true ∧
    (runLoop env budget rt qs i comp f tc st).2.1 = comp + (k - i) ∧
    (runLoop env budget rt qs i comp f tc st).1.results.length =
      st.results.length + (k - i) ∧
    (∀ res ∈ (runLoop env budget rt qs i comp f tc st).1.results,
      res ∈ st.results ∨
        res.question_id ∈ (qs.take (k - i)).map SpiderQuestion.question_id) ∧
    (runLoop env budget rt qs i comp f tc st).1.pollEvents =
      st.pollEvents ++ (List.range' i (k - i + 1)).filter (fun j => j % 10 == 0) ∧
    (runLoop env budget rt qs i comp f tc st).1.progressEvents.getLast? =
      some (comp + (k - i), f, none) := by
  intro qs
  induction qs with
  | nil =>
    intro i comp f tc st hik hlen
    simp only [List.length_nil] at hlen
    omega
  | cons q rest ih =>
    intro i comp f tc st hik hlen
    by_cases heq : i = k
    · subst heq
      have hcanc : env.pollStatus i = "cancelled" := (hp i).mpr hck
      have h10b : (i % 10 == 0) = true := by simp [hk10]
      have hrl : runLoop env budget rt (q :: rest) i comp f tc st =
          (⟨st.status, st.statusReason, st.runError, st.costEvents, st.results,
            st.progressEvents ++ [(comp, f, none)], st.pollEvents ++ [i],
            st.metricsComputed⟩, comp, f, tc, true) := by
        simp [runLoop, hcanc, h10b]
      rw [hrl]
      refine ⟨rfl, by simp [Nat.sub_self], by simp [Nat.sub_self], ?_, ?_, ?_⟩
      · intro res hres
        exact Or.inl hres
      · simp only [Nat.sub_self]
        rw [List.range'_succ]
        simp [hk10]
      · simp only [Nat.sub_self, Nat.add_zero]
        exact List.getLast?_concat _
    · have hik2 : i < k := by omega
      have hcond : (i % 10 == 0 && (env.pollStatus i == "cancelled")) = false := by
        by_cases h10 : i % 10 = 0
        · have hci : ¬ c ≤ i := fun hci => absurd (hfirst i h10 hci) (by omega)
          have hne : env.pollStatus i ≠ "cancelled" := fun hx => hci ((hp i).mp hx)
          simp [hne]
        · simp [h10]
      simp only [runLoop, hcond, Bool.false_eq_true, if_false]
      have hstep := loopStep_store env budget rt q comp f tc
        (if i % 10 == 0 then { st with pollEvents := st.pollEvents ++ [i] } else st)
      have hrec := ih (i + 1) (comp + 1) f
        (loopStep env budget rt q comp f tc
          (if i % 10 == 0 then { st with pollEvents := st.pollEvents ++ [i] } else st)).1
        (loopStep env budget rt q comp f tc
          (if i % 10 == 0 then { st with pollEvents := st.pollEvents ++ [i] } else st)).2
        (by omega) (by simp only [List.length_cons] at hlen; omega)
      refine ⟨hrec.1, by rw [hrec.2.1]; omega, ?_, ?_, ?_, ?_⟩
      · rw [hrec.2.2.1, hstep.2.1]
        by_cases h10 : (i % 10 == 0) = true
        · rw [if_pos h10]
          simp only [StoreState.mk.injEq]
          omega
        · rw [if_neg h10]
          omega
      · intro res hres
        rcases hrec.2.2.2.1 res hres with hr | hr
        · rcases hstep.2.2 res hr with hr2 | hr2
          · by_cases h10 : (i % 10 == 0) = true
            · rw [if_pos h10] at hr2
              exact Or.inl hr2
            · rw [if_neg h10] at hr2
              exact Or.inl hr2
          · right
            rw [show k - i = (k - (i + 1)) + 1 from by omega, List.take_succ_cons,
              List.map_cons]
            rw [hr2]
            exact List.mem_cons_self _ _
        · right
          rw [show k - i = (k - (i + 1)) + 1 from by omega, List.take_succ_cons,
            List.map_cons]
          exact List.mem_cons_of_mem _ hr
      · rw [hrec.2.2.2.2.1, hstep.1]
        rw [show k - (i + 1) + 1 = k - i from by omega]
        rw [filter_range'_split]
        by_cases h10 : (i % 10 == 0) = true
        · rw [if_pos h10, if_pos h10]
          simp [List.append_assoc]
        · rw [if_neg h10, if_neg h10]
          simp
      · rw [hrec.2.2.2.2.2]
        rw [show comp + 1 + (k - (i + 1)) = comp + (k - i) from by omega]

/-- C3: the orchestrator polls the externally stored status exactly at the
question indices that are multiples of 10.  With a cancellation request
visible from question index `c` on, let `k` be the first multiple of 10 at
or after `c` (so `k ≤ c + 9`: the request is honoured within at most 10
questions).  If the question list ends before `k` the run completes
normally, having polled every multiple of 10 below its length; otherwise
the run stops at the check at index `k`: it has polled exactly the
multiples of 10 up to `k`, written results only for the `k` questions
before the check, and flushed its progress counters as the final progress
event. -/
theorem c3_cancellation_polling :
    ∀ (env : RunEnv) (budget : Int) (data : List SpiderItem)
      (config : BenchmarkConfig) (c : Nat),
    (∀ j, (env.pollStatus j = "cancelled") ↔ c ≤ j) →
    (c ≤ 10 * ((c + 9) / 10) ∧ 10 * ((c + 9) / 10) ≤ c + 9) ∧
    ((load_spider_questions data config.databases config.question_limit).length ≤
        10 * ((c + 9) / 10) →
      (run_benchmark env budget data config).1.status = "completed" ∧
      (run_benchmark env budget data config).1.pollEvents =
        (List.range
          (load_spider_questions data config.databases config.question_limit).length).filter
          (fun j => j % 10 == 0)) ∧
    (10 * ((c + 9) / 10) <
        (load_spider_questions data config.databases config.question_limit).length →
      (run_benchmark env budget data config).1.pollEvents =
        (List.range (10 * ((c + 9) / 10) + 1)).filter (fun j => j % 10 == 0) ∧
      (run_benchmark env budget data config).1.results.length = 10 * ((c + 9) / 10) ∧
      (∀ res ∈ (run_benchmark env budget data config).1.results,
        res.question_id ∈
          ((load_spider_questions data config.databases config.question_limit).take
            (10 * ((c + 9) / 10))).map SpiderQuestion.question_id) ∧
      (run_benchmark env budget data config).1.progressEvents.getLast? =
        some (10 * ((c + 9) / 10), 0, none)) := by
  intro env budget data config c hp
  have hck : c ≤ 10 * ((c + 9) / 10) := by omega
  have hk10 : (10 * ((c + 9) / 10)) % 10 = 0 := by omega
  have hfirst : ∀ j, j % 10 = 0 → c ≤ j → 10 * ((c + 9) / 10) ≤ j := by
    intro j h1 h2
    omega
  refine ⟨⟨hck, by omega⟩, ?_, ?_⟩
  · intro hn
    have hnc : ∀ j, 0 ≤ j →
        j < 0 + (load_spider_questions data config.databases config.question_limit).length →
        j % 10 = 0 → env.pollStatus j ≠ "cancelled" := by
      intro j _ hj hj10 hx
      have hcj := (hp j).mp hx
      have := hfirst j hj10 hcj
      omega
    have h := runLoop_nocancel env budget config.run_type
      (load_spider_questions data config.databases config.question_limit)
      0 0 0 0 { initStore with status := "running" } hnc
    simp only [run_benchmark, h.2, Bool.false_eq_true, if_false]
    refine ⟨by trivial, ?_⟩
    rw [h.1, List.range_eq_range']
    simp [initStore]
  · intro hkn
    have h := runLoop_cancel env budget config.run_type c (10 * ((c + 9) / 10))
      hk10 hck hfirst hp
      (load_spider_questions data config.databases config.question_limit)
      0 0 0 0 { initStore with status := "running" } (by omega) (by omega)
    simp only [Nat.sub_zero, Nat.zero_add] at h
    simp only [run_benchmark, h.1, if_true]
    refine ⟨?_, ?_, ?_, ?_⟩
    · rw [h.2.2.2.2.1, List.range_eq_range']
      simp [initStore]
    · rw [h.2.2.1]
      simp [initStore]
    · intro res hres
      rcases h.2.2.2.1 res hres with hr | hr
      · simp [initStore] at hr
      · exact hr
    · exact h.2.2.2.2.2

theorem c3_cancellation_polling_witness :
    (∀ j, (envC.pollStatus j = "cancelled") ↔ 4 ≤ j) ∧
    (run_benchmark envC 1000000 dataC configC).1.pollEvents = [0, 10] ∧
    (run_benchmark envC 1000000 dataC configC).1.results.length = 10 := by
  have hp : ∀ j, (envC.pollStatus j = "cancelled") ↔ 4 ≤ j := by
    intro j
    by_cases h4 : 4 ≤ j <;> simp [envC, h4]
  have h := c3_cancellation_polling envC 1000000 dataC configC 4 hp
  have h2 := h.2.2 (by decide)
  exact ⟨hp, h2.1.trans (by decide), h2.2.1.trans (by decide)⟩

end Querydawg
